import Mathlib

/-!
Shallow embedding of the process / address-space core of the
Operating-System-Lab teaching kernel, together with proofs of the
specification claims about it.

Conventions:
* machine integers (`u16`, `u64`, `usize`) are modelled as `Nat`, with an
  explicit `% 2 ^ w` wherever the source relies on wrapping arithmetic;
* fallible or panicking code returns `Option` (`none` models a panic or a
  propagated error);
* the physical-frame allocator is modelled by a budget of free frames, and
  a page-table mapper by a `Nat → Bool` predicate on page numbers
  (frames are interchangeable for the properties proved here; intermediate
  page-table frames allocated by `map_to` are not modelled);
* virtual addresses are byte addresses, pages are numbered `addr / 4096`.
-/

namespace OsLab

/-! ## Semaphores (`pkg/kernel/src/proc/sync.rs`) -/

/-- `Semaphore { count: usize, wait_queue: VecDeque<ProcessId> }`. -/
structure Semaphore where
  count : Nat
  wait_queue : List Nat
deriving DecidableEq, Repr

/-- `SemaphoreResult`. -/
inductive SemaphoreResult
  | Ok
  | NotExist
  | Block (pid : Nat)
  | WakeUp (pid : Nat)
deriving DecidableEq, Repr

/-- `Semaphore::new(value)`. -/
def Semaphore.new (value : Nat) : Semaphore :=
  { count := value, wait_queue := [] }

/-- `Semaphore::wait(pid)`: if the count is 0 push the pid at the back of
the wait queue and report `Block`, else decrement and report `Ok`. -/
def Semaphore.wait (s : Semaphore) (pid : Nat) : Semaphore × SemaphoreResult :=
  if s.count = 0 then
    ({ s with wait_queue := s.wait_queue ++ [pid] }, SemaphoreResult.Block pid)
  else
    ({ s with count := s.count - 1 }, SemaphoreResult.Ok)

/-- `Semaphore::signal()`: if the wait queue is non-empty pop the head and
report `WakeUp`, else increment the count. -/
def Semaphore.signal (s : Semaphore) : Semaphore × SemaphoreResult :=
  match s.wait_queue with
  | [] => ({ s with count := s.count + 1 }, SemaphoreResult.Ok)
  | pid :: rest => ({ s with wait_queue := rest }, SemaphoreResult.WakeUp pid)

/-- An abstract wait/signal operation on one semaphore key. -/
inductive SemOp
  | wait (pid : Nat)
  | signal
deriving DecidableEq, Repr

/-- State transition of one semaphore under one operation. -/
def Semaphore.step (s : Semaphore) : SemOp → Semaphore
  | SemOp.wait pid => (s.wait pid).1
  | SemOp.signal => (s.signal).1

/-- State of one semaphore after a finite sequence of operations. -/
def Semaphore.run (s : Semaphore) (ops : List SemOp) : Semaphore :=
  ops.foldl Semaphore.step s

/-- The invariant claimed by the spec: a strictly positive count implies an
empty wait queue. -/
def semInvariant (s : Semaphore) : Prop :=
  0 < s.count → s.wait_queue = []

/-! ## SemaphoreSet (`pkg/kernel/src/proc/sync.rs`) -/

/-- `SemaphoreSet { sems: BTreeMap<SemaphoreId, Mutex<Semaphore>> }`,
modelled as an association list with at most one entry per key
(lookup finds the first matching entry). -/
structure SemaphoreSet where
  sems : List (Nat × Semaphore)
deriving DecidableEq, Repr

/-- `BTreeMap::get` on the set. -/
def SemaphoreSet.get (set : SemaphoreSet) (key : Nat) : Option Semaphore :=
  (set.sems.find? (fun kv => kv.1 == key)).map (fun kv => kv.2)

/-- `SemaphoreSet::insert(key, value)`: `BTreeMap::insert` replaces any
existing entry for the key with a fresh `Semaphore::new(value)` and returns
the old entry; the method reports `is_none()` of that old entry. -/
def SemaphoreSet.insert (set : SemaphoreSet) (key : Nat) (value : Nat) :
    SemaphoreSet × Bool :=
  let fresh := Semaphore.new value
  match set.get key with
  | some _ =>
    ({ sems := set.sems.map (fun kv => if kv.1 == key then (key, fresh) else kv) },
      false)
  | none => ({ sems := set.sems ++ [(key, fresh)] }, true)

/-! ## Process identifiers (`pkg/kernel/src/proc/pid.rs`) -/

/-- Initial value of `NEXT_PID: AtomicU16` — starts at 2 because 1 is
reserved for the kernel process. -/
def PID_START : Nat := 2

/-- Modulus of the 16-bit atomic counter backing the generator. -/
def U16_MOD : Nat := 65536

/-- `NEXT_PID.fetch_add(1, SeqCst)`: returns the old value and stores the
wrapping successor (an `AtomicU16` wraps on overflow). -/
def pidFetchAdd (next : Nat) : Nat × Nat :=
  (next, (next + 1) % U16_MOD)

/-- Counter value after `k` allocations from boot. -/
def pidCounterAfter : Nat → Nat
  | 0 => PID_START
  | k + 1 => (pidFetchAdd (pidCounterAfter k)).2

/-- The pid returned by the `k`-th call to `ProcessId::new` (0-indexed). -/
def pidAt (k : Nat) : Nat := (pidFetchAdd (pidCounterAfter k)).1

/-! ## Frames and pages (external `x86_64` mapper / `BootInfoFrameAllocator`,
consumed as primitives per the spec's external-interface section) -/

/-- `crate::memory::PAGE_SIZE` (4 KiB pages, `Size4KiB`). -/
def PAGE_SIZE : Nat := 4096

/-- Combined state of the page-table mapper and the physical-frame
allocator. `mapped p` tells whether virtual page number `p` is mapped;
`budget` is the number of free physical frames. -/
structure Mapper where
  mapped : Nat → Bool
  budget : Nat

/-- A successful `allocate_frame` + `map_to(page, frame, flags)`:
consumes one frame and maps the page. -/
def Mapper.mapPage (m : Mapper) (p : Nat) : Mapper :=
  { mapped := fun q => if q = p then true else m.mapped q,
    budget := m.budget - 1 }

/-- A successful `unmap(page)` + `deallocate_frame(frame)`:
unmaps the page and returns its frame. -/
def Mapper.unmapPage (m : Mapper) (p : Nat) : Mapper :=
  { mapped := fun q => if q = p then false else m.mapped q,
    budget := m.budget + 1 }

/-- `Page::containing_address`. -/
def pageOf (addr : Nat) : Nat := addr / PAGE_SIZE

/-- `Page::range_inclusive(start, end)` as a list of page numbers
(empty when `start > end`). -/
def pageRangeInclusive (s e : Nat) : List Nat :=
  if s ≤ e then (List.range (e - s + 1)).map (fun i => s + i) else []

/-- `Page::range(start, end)` (half-open) as a list of page numbers. -/
def pageRange (s e : Nat) : List Nat :=
  (List.range (e - s)).map (fun i => s + i)

/-- Unmap loop that skips failures
(`if let Ok((frame, _)) = mapper.unmap(page)` — an unmapped page is
silently skipped), freeing the frame of every page it does unmap. -/
def unmapPagesLenient (m : Mapper) : List Nat → Mapper
  | [] => m
  | p :: rest =>
    if m.mapped p then unmapPagesLenient (m.unmapPage p) rest
    else unmapPagesLenient m rest

/-- Unmap loop that propagates failures (`mapper.unmap(page)?` — an
unmapped page aborts the whole call; pages already unmapped by the call
stay unmapped). -/
def unmapPagesStrict (m : Mapper) : List Nat → Option Mapper
  | [] => some m
  | p :: rest =>
    if m.mapped p then unmapPagesStrict (m.unmapPage p) rest
    else none

/-! ## Heap (`Code/0x07/pkg/kernel/src/proc/vm/heap.rs`) -/

def HEAP_START : Nat := 0x200000000000
def HEAP_PAGES : Nat := 0x100000
def HEAP_SIZE : Nat := HEAP_PAGES * PAGE_SIZE
def HEAP_END : Nat := HEAP_START + HEAP_SIZE - 8

/-- `(x + PAGE_SIZE - 1) & !(PAGE_SIZE - 1)`: align up to a page boundary
(operands stay far below `2 ^ 64`, so `Nat` arithmetic agrees with `u64`). -/
def alignUp (a : Nat) : Nat := ((a + PAGE_SIZE - 1) / PAGE_SIZE) * PAGE_SIZE

/-- `Heap { base: VirtAddr, end: Arc<AtomicU64> }` — `endAddr` is the
current value of the shared end counter. -/
structure Heap where
  base : Nat
  endAddr : Nat
deriving DecidableEq, Repr

/-- `Heap::empty()`. -/
def Heap.empty : Heap := { base := HEAP_START, endAddr := HEAP_START }

/-- `Heap::memory_usage()`: `end - base`. -/
def Heap.memory_usage (h : Heap) : Nat := h.endAddr - h.base

/-- The grow loop of `Heap::brk`: allocate and map a frame for each page in
order. A frame-allocation failure returns immediately (pages mapped earlier
in this loop stay mapped); a `map_to` failure gives the just-allocated
frame back and also returns. The `Bool` reports success. -/
def heapGrowLoop (m : Mapper) : List Nat → Mapper × Bool
  | [] => (m, true)
  | p :: rest =>
    if m.budget = 0 then (m, false)
    else if m.mapped p then (m, false)
    else heapGrowLoop (m.mapPage p) rest

/-- `Heap::brk(new_end)`. Returns the updated heap, the updated
mapper/allocator and the `Option<VirtAddr>` result. -/
def Heap.brk (h : Heap) (m : Mapper) (newEnd : Option Nat) :
    Heap × Mapper × Option Nat :=
  match newEnd with
  | none => (h, m, some h.endAddr)
  | some target =>
    if target < HEAP_START ∨ HEAP_END < target then (h, m, none)
    else
      let currentEnd := h.endAddr
      let targetAligned := alignUp target
      let currentAligned := alignUp currentEnd
      if target = h.base then
        let m1 :=
          if h.base < currentEnd then
            unmapPagesLenient m
              (pageRangeInclusive (pageOf h.base) (pageOf (currentAligned - 1)))
          else m
        ({ h with endAddr := h.base }, m1, some h.base)
      else if targetAligned < currentAligned then
        let m1 := unmapPagesLenient m
          (pageRangeInclusive (pageOf targetAligned) (pageOf (currentAligned - 1)))
        ({ h with endAddr := target }, m1, some target)
      else if currentAligned < targetAligned then
        let res := heapGrowLoop m
          (pageRangeInclusive (pageOf currentAligned) (pageOf (targetAligned - 1)))
        if res.2 then ({ h with endAddr := target }, res.1, some target)
        else (h, res.1, none)
      else
        ({ h with endAddr := target }, m, some target)

/-- `Heap::clean_up`: if usage is non-zero, swap the end back to base and
unmap (leniently) every page from base up to the page containing
`end - 1`, freeing the frames. -/
def Heap.clean_up (h : Heap) (m : Mapper) : Heap × Mapper :=
  if h.memory_usage = 0 then (h, m)
  else
    let e := h.endAddr
    ({ h with endAddr := h.base },
      unmapPagesLenient m (pageRangeInclusive (pageOf h.base) (pageOf (e - 1))))

/-! ## Stack (`Code/0x07/pkg/kernel/src/proc/vm/stack.rs`) -/

def STACK_MAX : Nat := 0x400000000000
def STACK_MAX_PAGES : Nat := 0x100000
def STACK_MAX_SIZE : Nat := STACK_MAX_PAGES * PAGE_SIZE

/-- Top page of the initial (empty) user stack slot:
`Page::containing_address(STACK_INIT_TOP)` with
`STACK_INIT_TOP = STACK_MAX - 8`. -/
def STACK_INIT_TOP_PAGE : Nat := (STACK_MAX - 8) / PAGE_SIZE

/-- `Stack { range: PageRange, usage: u64, is_kernel: bool }`; the range is
`[rangeStart, rangeEnd)` in page numbers. -/
structure Stack where
  rangeStart : Nat
  rangeEnd : Nat
  usage : Nat
  is_kernel : Bool
deriving DecidableEq, Repr

/-- `Stack::empty()`. -/
def Stack.empty : Stack :=
  { rangeStart := STACK_INIT_TOP_PAGE, rangeEnd := STACK_INIT_TOP_PAGE,
    usage := 0, is_kernel := false }

/-- `self.range.start.start_address()`. -/
def Stack.start_address (s : Stack) : Nat := s.rangeStart * PAGE_SIZE

/-- `Stack::is_on_stack(addr)`:
`addr & STACK_START_MASK == cur_stack_bot & STACK_START_MASK` with
`STACK_START_MASK = !(STACK_MAX_SIZE - 1)`; masking off the low 32 bits is
division by `STACK_MAX_SIZE = 2 ^ 32`. -/
def Stack.is_on_stack (s : Stack) (addr : Nat) : Bool :=
  addr / STACK_MAX_SIZE == s.start_address / STACK_MAX_SIZE

/-- `Stack::map_pages` (shared by `init` and `grow_stack`): map
`count` pages starting at `rangeStart`, allocating one frame per page.
A frame-allocation failure or a `map_to` failure aborts via `?`
(the frame just allocated for a failed `map_to` is not given back, and
earlier pages of the call stay mapped). -/
def mapPagesStrict (m : Mapper) : List Nat → Mapper × Bool
  | [] => (m, true)
  | p :: rest =>
    if m.budget = 0 then (m, false)
    else if m.mapped p then ({ m with budget := m.budget - 1 }, false)
    else mapPagesStrict (m.mapPage p) rest

/-- `Stack::grow_stack(addr)`: rejects when `usage + 32 > STACK_MAX_PAGES`;
otherwise maps exactly the pages from the faulting page up to (excluding)
the current range start, and moves the range start down. The `Bool`
reports `Ok`/`Err`. -/
def Stack.grow_stack (s : Stack) (m : Mapper) (addr : Nat) :
    Stack × Mapper × Bool :=
  let page := pageOf addr
  let growth_pages := 32
  if STACK_MAX_PAGES < s.usage + growth_pages then (s, m, false)
  else
    let newStart := if page < s.rangeStart then page else s.rangeStart
    let count := s.rangeStart - newStart
    if count = 0 then (s, m, true)
    else
      let res := mapPagesStrict m (pageRange newStart s.rangeStart)
      if res.2 then
        ({ s with rangeStart := newStart, usage := s.usage + count }, res.1, true)
      else (s, res.1, false)

/-- `Stack::handle_page_fault(addr)`. -/
def Stack.handle_page_fault (s : Stack) (m : Mapper) (addr : Nat) :
    Stack × Mapper × Bool :=
  if s.is_on_stack addr then s.grow_stack m addr
  else (s, m, false)

/-- `Stack::clean_up`: nothing to do when usage is 0; otherwise strictly
unmap every page of the range (any failure propagates) and reset the stack
to the empty initial range. -/
def Stack.clean_up (s : Stack) (m : Mapper) : Option (Stack × Mapper) :=
  if s.usage = 0 then some (s, m)
  else
    match unmapPagesStrict m (pageRange s.rangeStart s.rangeEnd) with
    | none => none
    | some m1 =>
      some ({ s with usage := 0, rangeStart := STACK_INIT_TOP_PAGE, rangeEnd := STACK_INIT_TOP_PAGE }, m1)

/-! ## Page-table context (`Code/0x06/pkg/kernel/src/proc/paging.rs`) -/

/-- `PageTableContext { reg: Arc<Cr3RegValue> }`: `rootFrame` is the frame
number of the level-4 table (`reg.addr`). The `Arc` strong count is
Rust-runtime state and is passed to `clean_up` as `usingCount` below. -/
structure PageTableContext where
  rootFrame : Nat
deriving DecidableEq, Repr

/-- `PageTableContext::fork`: clone the `Arc` — same root frame (the
reference-count increment is the caller's `usingCount` bookkeeping). -/
def PageTableContext.fork (pt : PageTableContext) : PageTableContext := pt

/-- `Heap::fork`: clones the `Arc`-shared end pointer — parent and child
see one logical heap. -/
def Heap.fork (h : Heap) : Heap := h

/-! ## ProcessVm (`Code/0x07/pkg/kernel/src/proc/vm/mod.rs`) -/

/-- `ProcessVm`: page-table handle, stack, heap, owned code page ranges
(inclusive, as (first page, last page) pairs) and code byte count. -/
structure ProcessVm where
  page_table : PageTableContext
  stack : Stack
  heap : Heap
  code : List (Nat × Nat)
  code_usage : Nat
deriving DecidableEq, Repr

/-- Modelled from the spec: `elf::unmap_range` lives in `pkg/elf`, which is
not among the provided sources. Per the spec's teardown section the owned
code mappings "are freed": each page of the inclusive range is unmapped
and (the call site passes `dealloc = true`) its frame freed. -/
def unmap_range (m : Mapper) (r : Nat × Nat) : Mapper :=
  unmapPagesLenient m (pageRangeInclusive r.1 r.2)

/-- `ProcessVm::clean_up`, with `usingCount` the value of
`self.page_table.using_count()` (`Arc::strong_count`) at call time:
always tear the stack down; only when this handle is the last owner
(`usingCount == 1`) also tear down the heap, unmap the owned code ranges,
and free the page-table frames. The returned `Bool` reports whether the
level-4 root frame was freed; the P1–P3 table frames freed by
`mapper.clean_up` are not separately modelled. -/
def ProcessVm.clean_up (vm : ProcessVm) (m : Mapper) (usingCount : Nat) :
    Option (ProcessVm × Mapper × Bool) :=
  match vm.stack.clean_up m with
  | none => none
  | some sm =>
    if usingCount = 1 then
      let hm := vm.heap.clean_up sm.2
      let m2 := vm.code.foldl unmap_range hm.2
      some ({ vm with stack := sm.1, heap := hm.1 }, { m2 with budget := m2.budget + 1 }, true)
    else
      some ({ vm with stack := sm.1 }, sm.2, false)

/-! ## Stack fork (`Code/0x07/pkg/kernel/src/proc/vm/stack.rs`) -/

/-- The placement search of `Stack::fork`: starting from
`offset = stack_offset_count + 1` and for at most 10 attempts, compute
`current_addr = STACK_MAX - offset * STACK_MAX_SIZE` (wrapping `u64`
arithmetic), panic (`none`) if it falls below `STACK_MAX_SIZE`, and accept
the page range `[top_page - usage + 1, top_page + 1)` at that address if
none of its pages is mapped (`translate_page(page).is_ok()` probes).
Exhausting the attempts is the `expect` panic (`none`). -/
def stackForkFind (m : Mapper) (usage : Nat) : Nat → Nat → Option (Nat × Nat)
  | _, 0 => none
  | offset, fuel + 1 =>
    let currentAddr := (STACK_MAX + 2 ^ 64 - (offset * STACK_MAX_SIZE) % 2 ^ 64) % 2 ^ 64
    if currentAddr < STACK_MAX_SIZE then none
    else
      let topPage := pageOf currentAddr
      let startPage := topPage - usage + 1
      if (pageRange startPage (topPage + 1)).all (fun p => !(m.mapped p)) then
        some (startPage, topPage + 1)
      else stackForkFind m usage (offset + 1) fuel

/-- `Stack::fork`: find a free range, map all of it (a frame-allocation or
mapping failure is an `expect` panic, `none`), copy the parent's whole
mapped stack bytes into it (`clone_range` copies `usage` pages verbatim),
and return the child stack. `mem` is the byte content of virtual memory. -/
def Stack.fork (s : Stack) (m : Mapper) (mem : Nat → Nat)
    (stack_offset_count : Nat) : Option (Stack × Mapper × (Nat → Nat)) :=
  match stackForkFind m s.usage (stack_offset_count + 1) 10 with
  | none => none
  | some r =>
    let res := mapPagesStrict m (pageRange r.1 r.2)
    if res.2 then
      let parentBot := s.rangeStart * PAGE_SIZE
      let childBot := r.1 * PAGE_SIZE
      let bytes := s.usage * PAGE_SIZE
      let mem1 := fun a =>
        if childBot ≤ a ∧ a < childBot + bytes then mem (parentBot + (a - childBot)) else mem a
      some ({ rangeStart := r.1, rangeEnd := r.2, usage := s.usage, is_kernel := s.is_kernel }, res.1, mem1)
    else none

/-- `ProcessVm::fork(stack_offset_count)`: share the page-table handle and
the heap end pointer, duplicate the stack, own no code ranges. -/
def ProcessVm.fork (vm : ProcessVm) (m : Mapper) (mem : Nat → Nat)
    (stack_offset_count : Nat) : Option (ProcessVm × Mapper × (Nat → Nat)) :=
  match vm.stack.fork m mem stack_offset_count with
  | none => none
  | some r =>
    some ({ page_table := vm.page_table.fork, stack := r.1, heap := vm.heap.fork, code := [], code_usage := 0 }, r.2.1, r.2.2)

/-! ## Process (`Code/0x06/pkg/kernel/src/proc/process.rs`) -/

/-- `ProgramStatus`. -/
inductive ProgramStatus
  | Running | Ready | Blocked | Dead
deriving DecidableEq, Repr

/-- The saved register snapshot (`ProcessContext`), restricted to the
registers the claims speak about: the return-value register `rax` and the
stack pointer `rsp` (`stack_frame.stack_pointer`). -/
structure ProcessContext where
  rax : Nat
  rsp : Nat
deriving DecidableEq, Repr

/-- `ProcessData` (shared-ownership fields); only the semaphore set is
relevant to the claims. -/
structure ProcessData where
  semaphores : SemaphoreSet
deriving DecidableEq, Repr

/-- `ProcessInner`, with `childrenCount` standing for `children.len()`. -/
structure ProcessInner where
  status : ProgramStatus
  context : ProcessContext
  ticks_passed : Nat
  exit_code : Option Int
  childrenCount : Nat
  proc_data : Option ProcessData
  proc_vm : Option ProcessVm
deriving DecidableEq, Repr

/-- `Deref for ProcessInner` → `&ProcessData`
(`proc_data.as_ref().expect("Process data empty. The process may be
killed.")`): `none` is the panic on a killed process. -/
def ProcessInner.derefData (p : ProcessInner) : Option ProcessData := p.proc_data

/-- `ProcessInner::vm` (`proc_vm.as_ref().unwrap()`): `none` is the panic
on a killed process. -/
def ProcessInner.vm (p : ProcessInner) : Option ProcessVm := p.proc_vm

/-- `ProcessInner::pause`. -/
def ProcessInner.pause (p : ProcessInner) : ProcessInner := { p with status := .Ready }

/-- `ProcessInner::resume`. -/
def ProcessInner.resume (p : ProcessInner) : ProcessInner := { p with status := .Running }

/-- `ProcessInner::block`. -/
def ProcessInner.block (p : ProcessInner) : ProcessInner := { p with status := .Blocked }

/-- `ProcessInner::tick`. -/
def ProcessInner.tick (p : ProcessInner) : ProcessInner := { p with ticks_passed := p.ticks_passed + 1 }

/-- `ProcessInner::save(context)`: store the snapshot only. -/
def ProcessInner.save (p : ProcessInner) (ctx : ProcessContext) : ProcessInner :=
  { p with context := ctx }

/-- `ProcessInner::restore(context)`: write the saved snapshot into the
caller's context, load the page table (`self.vm()` unwraps `proc_vm`, so
`none` is the panic on a dead process — reached before `resume`), and mark
the process Running. -/
def ProcessInner.restore (p : ProcessInner) : Option (ProcessInner × ProcessContext) :=
  match p.proc_vm with
  | none => none
  | some _ => some (p.resume, p.context)

/-- `ProcessInner::kill(ret)`: set the exit code, go Dead, and drop
`proc_data` / `proc_vm` (the drop triggers the address-space teardown,
modelled separately by `ProcessVm.clean_up`). -/
def ProcessInner.kill (p : ProcessInner) (ret : Int) : ProcessInner :=
  { p with exit_code := some ret, status := .Dead, proc_data := none, proc_vm := none }

/-- `ProcessInner::fork`: duplicate the VM (stack offset = current child
count), clone the context with rsp moved to the same byte offset from the
new stack base and rax forced to 0; the child starts Ready with zero ticks
and no children. `none` models the `expect` panics (missing vm or data,
stack placement or mapping failure). The `u64` subtraction
`rsp - stack_start` is modelled on `Nat` (the claims constrain rsp to lie
inside the stack). -/
def ProcessInner.fork (p : ProcessInner) (m : Mapper) (mem : Nat → Nat) :
    Option (ProcessInner × Mapper × (Nat → Nat)) :=
  match p.proc_vm, p.proc_data with
  | some vm, some pd =>
    match vm.fork m mem p.childrenCount with
    | none => none
    | some r =>
      let childVm := r.1
      let off := p.context.rsp - vm.stack.start_address
      let childCtx : ProcessContext := { rax := 0, rsp := childVm.stack.start_address + off }
      some ({ status := .Ready, context := childCtx, ticks_passed := 0, exit_code := none, childrenCount := 0, proc_data := some pd, proc_vm := some childVm }, r.2.1, r.2.2)
  | _, _ => none

/-- `Process::fork`: run `ProcessInner::fork` on the current process,
append the child to the parent's children list, and set the parent's saved
rax to the child's fresh pid (`ProcessId::new()` supplies `childPid`).
Returns (updated parent, child, mapper, memory). -/
def Process.fork (p : ProcessInner) (childPid : Nat) (m : Mapper)
    (mem : Nat → Nat) : Option (ProcessInner × ProcessInner × Mapper × (Nat → Nat)) :=
  match p.fork m mem with
  | none => none
  | some r =>
    some ({ p with childrenCount := p.childrenCount + 1, context := { p.context with rax := childPid } }, r.1, r.2.1, r.2.2)

/-! ## Process Manager (`Code/0x05/pkg/kernel/src/proc/manager.rs`;
`switch` from `Code/0x06/pkg/kernel/src/proc/mod.rs`) -/

/-- PID 1 is reserved for the kernel/idle process. -/
def KERNEL_PID : Nat := 1

/-- Manager plus processor state: the process table, the FIFO ready
queue, the `wait_pid` wait table, and the processor's current pid. -/
structure MgrState where
  procs : Nat → Option ProcessInner
  ready_queue : List Nat
  waitq : Nat → List Nat
  current : Nat

/-- Replace one table entry. -/
def MgrState.setProc (st : MgrState) (pid : Nat) (p : ProcessInner) : MgrState :=
  { st with procs := fun q => if q = pid then some p else st.procs q }

/-- `ProcessManager::push_ready(pid)`. -/
def MgrState.push_ready (st : MgrState) (pid : Nat) : MgrState :=
  { st with ready_queue := st.ready_queue ++ [pid] }

/-- `ProcessManager::save_current(context)`: store the snapshot into the
current process; if its status is already Ready, enqueue it. `none` is the
"No current process" panic. -/
def MgrState.save_current (st : MgrState) (ctx : ProcessContext) : Option MgrState :=
  match st.procs st.current with
  | none => none
  | some p =>
    let st1 := st.setProc st.current (p.save ctx)
    if p.status = .Ready then some (st1.push_ready st.current) else some st1

/-- The candidate loop of `ProcessManager::switch_next`: pop pids FIFO;
skip a candidate that is gone from the table or no longer Ready; dispatch
the first genuinely Ready one (restore its context, set it Running, set
the processor pid). When the queue is exhausted, issue `hlt` only if the
caller is already the kernel process, then restore the kernel process.
`none` models the panics (kernel process missing from the table, or
restore on a process whose `proc_vm` is gone). The `Bool` in the result
reports whether `hlt` was issued. -/
def switchLoop (st : MgrState) (ctx : ProcessContext) :
    List Nat → Option (MgrState × ProcessContext × Nat × Bool)
  | [] =>
    let hlt := st.current == KERNEL_PID
    match st.procs KERNEL_PID with
    | none => none
    | some k =>
      match k.restore with
      | none => none
      | some kr =>
        some ({ st.setProc KERNEL_PID kr.1 with ready_queue := [], current := KERNEL_PID }, kr.2, KERNEL_PID, hlt)
  | pid :: rest =>
    match st.procs pid with
    | none => switchLoop st ctx rest
    | some p =>
      if p.status = .Ready then
        match p.restore with
        | none => none
        | some pr =>
          some ({ st.setProc pid pr.1 with ready_queue := rest, current := pid }, pr.2, pid, false)
      else switchLoop st ctx rest

/-- `ProcessManager::switch_next(context)`. -/
def MgrState.switch_next (st : MgrState) (ctx : ProcessContext) :
    Option (MgrState × ProcessContext × Nat × Bool) :=
  switchLoop st ctx st.ready_queue

/-- `isize as usize`: two's-complement reinterpretation. -/
def intToUsize (v : Int) : Nat := (v % (2 ^ 64 : Int)).toNat

/-- `ProcessManager::wake_up(pid, ret)`: only a currently-Blocked process
is woken; optionally stamp the return value into its saved rax, set it
Ready and enqueue it. Anything else is a silent no-op. -/
def MgrState.wake_up (st : MgrState) (pid : Nat) (ret : Option Int) : MgrState :=
  match st.procs pid with
  | none => st
  | some p =>
    if p.status = .Blocked then
      let ctx1 := match ret with
        | some v => { p.context with rax := intToUsize v }
        | none => p.context
      (st.setProc pid { p with status := .Ready, context := ctx1 }).push_ready pid
    else st

/-- `ProcessManager::block(pid)`: takes the write lock and calls
`ProcessInner::block` — with no status check. -/
def MgrState.block (st : MgrState) (pid : Nat) : MgrState :=
  match st.procs pid with
  | none => st
  | some p => st.setProc pid p.block

/-- `ProcessManager::kill(pid, ret)`: no-op (with a logged warning) when
the pid is unknown or already Dead; otherwise kill the inner process, then
remove the wait-table entry under this pid and wake every process parked
there with the exit code. -/
def MgrState.kill (st : MgrState) (pid : Nat) (ret : Int) : MgrState :=
  match st.procs pid with
  | none => st
  | some p =>
    if p.status = .Dead then st
    else
      let st1 := st.setProc pid (p.kill ret)
      let waiters := st1.waitq pid
      let st2 := { st1 with waitq := fun q => if q = pid then [] else st1.waitq q }
      waiters.foldl (fun acc w => acc.wake_up w (some ret)) st2

/-- `proc::switch(context)` (timer tick): save the current context; if the
current process is neither Dead nor Blocked, enqueue it, set it Ready and
tick it; then switch to the next process. -/
def MgrState.switch (st : MgrState) (ctx : ProcessContext) :
    Option (MgrState × ProcessContext × Nat × Bool) :=
  match st.save_current ctx with
  | none => none
  | some st1 =>
    match st1.procs st1.current with
    | none => none
    | some p =>
      let st2 :=
        if p.status ≠ .Dead ∧ p.status ≠ .Blocked then
          (st1.push_ready st1.current).setProc st1.current p.pause.tick
        else st1
      st2.switch_next ctx

/-- The pids returned by `n` successive calls to `switch_next`
(stopping early at a modelled panic). -/
def dispatchStream (st : MgrState) (ctx : ProcessContext) : Nat → List Nat
  | 0 => []
  | n + 1 =>
    match st.switch_next ctx with
    | none => []
    | some r => r.2.2.1 :: dispatchStream r.1 r.2.1 n

/-- A pid the dispatcher would accept: present in the table, Ready, and
with a live vm (so that `restore` succeeds). -/
def MgrState.dispatchable (st : MgrState) (pid : Nat) : Bool :=
  match st.procs pid with
  | none => false
  | some p => p.status == .Ready && p.proc_vm.isSome

/-- A pid `switch_next` would drop: vanished from the table or no longer
Ready. -/
def MgrState.skippable (st : MgrState) (pid : Nat) : Bool :=
  match st.procs pid with
  | none => true
  | some p => !(p.status == .Ready)

/-! ## Concrete scheduler states

A kernel process (pid 1), one Ready user process (pid 5) on the ready
queue, and a manager state holding a Dead process; used to exercise the
scheduling and state-machine theorems on closed instances. -/

def exampleKernelProc : ProcessInner :=
  ProcessInner.mk ProgramStatus.Ready (ProcessContext.mk 0 0) 0 none 0
    (some (ProcessData.mk (SemaphoreSet.mk [])))
    (some (ProcessVm.mk (PageTableContext.mk 1) Stack.empty Heap.empty [] 0))

def exampleUserProc : ProcessInner :=
  ProcessInner.mk ProgramStatus.Ready (ProcessContext.mk 9 64) 0 none 0
    (some (ProcessData.mk (SemaphoreSet.mk [])))
    (some (ProcessVm.mk (PageTableContext.mk 2) Stack.empty Heap.empty [] 0))

def exampleMgr : MgrState :=
  MgrState.mk
    (fun pid => if pid = 1 then some exampleKernelProc else if pid = 5 then some exampleUserProc else none)
    [5] (fun _ => []) 1

/-- A process killed earlier: Dead, data and vm dropped. -/
def exampleDeadProc : ProcessInner :=
  ProcessInner.mk ProgramStatus.Dead (ProcessContext.mk 0 0) 0 (some 1) 0 none none

def exampleDeadMgr : MgrState :=
  MgrState.mk
    (fun pid => if pid = 1 then some exampleKernelProc else if pid = 5 then some exampleDeadProc else none)
    [] (fun _ => []) 1

/-! ## A concrete fork scenario

The parent runs with a 1-page stack at the top user-stack slot, rsp 0x800
bytes above the stack base and rax 7; one free frame is available for the
child stack. Used to exercise the fork theorem on a closed instance. -/

def exampleForkVm : ProcessVm :=
  ProcessVm.mk (PageTableContext.mk 5) (Stack.mk 17179869183 17179869184 1 false) Heap.empty [] 0

def exampleForkParent : ProcessInner :=
  ProcessInner.mk ProgramStatus.Running (ProcessContext.mk 7 70368744175616) 3 none 0
    (some (ProcessData.mk (SemaphoreSet.mk []))) (some exampleForkVm)

def exampleForkMapper : Mapper := Mapper.mk (fun q => q == 17179869183) 1

def exampleForkMem : Nat → Nat := fun a => a % 251

/-- The child's address space as produced by `fork` in the scenario: the
stack was placed one slot below the parent's. -/
def exampleForkChildVm : ProcessVm :=
  ProcessVm.mk (PageTableContext.mk 5) (Stack.mk 17178820608 17178820609 1 false) Heap.empty [] 0

/-- The full result of `Process::fork` (child pid 42) in the scenario. -/
def exampleForkResult : ProcessInner × ProcessInner × Mapper × (Nat → Nat) :=
  (ProcessInner.mk ProgramStatus.Running (ProcessContext.mk 42 70368744175616) 3 none 1
      (some (ProcessData.mk (SemaphoreSet.mk []))) (some exampleForkVm),
    ProcessInner.mk ProgramStatus.Ready (ProcessContext.mk 0 70364449212416) 0 none 0
      (some (ProcessData.mk (SemaphoreSet.mk []))) (some exampleForkChildVm),
    exampleForkMapper.mapPage 17178820608,
    fun a => if 70364449210368 ≤ a ∧ a < 70364449214464 then
        exampleForkMem (70368744173568 + (a - 70364449210368))
      else exampleForkMem a)

/-! ## A concrete fork-teardown scenario

Parent and child share page-table root 77 (refcount 2 while both live);
the parent owns stack page 1000, the child stack page 2000, and the shared
heap holds one mapped page. Used to exercise the teardown theorems on a
closed instance. -/

def examplePt : PageTableContext := PageTableContext.mk 77

def exampleParentVm : ProcessVm :=
  ProcessVm.mk examplePt (Stack.mk 1000 1001 1 false)
    (Heap.mk HEAP_START (HEAP_START + PAGE_SIZE)) [] 0

def exampleChildVm : ProcessVm :=
  ProcessVm.mk examplePt (Stack.mk 2000 2001 1 false)
    (Heap.mk HEAP_START (HEAP_START + PAGE_SIZE)) [] 0

def exampleMapper : Mapper :=
  Mapper.mk (fun p => p == 1000 || p == 2000 || p == 8589934592) 10

/-- Result of `clean_up` on the dying child (refcount still 2). -/
def exampleChildCleanup : ProcessVm × Mapper × Bool :=
  (ProcessVm.mk examplePt (Stack.mk STACK_INIT_TOP_PAGE STACK_INIT_TOP_PAGE 0 false)
      (Heap.mk HEAP_START (HEAP_START + PAGE_SIZE)) [] 0,
    exampleMapper.unmapPage 2000, false)

/-- Result of `clean_up` on the dying parent afterwards (refcount 1). -/
def exampleParentCleanup : ProcessVm × Mapper × Bool :=
  (ProcessVm.mk examplePt (Stack.mk STACK_INIT_TOP_PAGE STACK_INIT_TOP_PAGE 0 false)
      (Heap.mk HEAP_START HEAP_START) [] 0,
    Mapper.mk (((exampleMapper.unmapPage 2000).unmapPage 1000).unmapPage 8589934592).mapped
      ((((exampleMapper.unmapPage 2000).unmapPage 1000).unmapPage 8589934592).budget + 1), true)

end OsLab

namespace OsLab

/-! ## Lemmas -/

lemma semInvariant_new (C : Nat) : semInvariant (Semaphore.new C) := by
  intro _
  rfl

lemma semInvariant_step (s : Semaphore) (op : SemOp) (h : semInvariant s) :
    semInvariant (s.step op) := by
  cases op with
  | wait pid =>
    simp only [Semaphore.step, Semaphore.wait]
    by_cases hc : s.count = 0
    · simp only [hc, if_pos rfl]
      intro hpos
      simp at hpos
    · simp only [if_neg hc]
      intro _
      exact h (Nat.pos_of_ne_zero hc)
  | signal =>
    simp only [Semaphore.step, Semaphore.signal]
    cases hq : s.wait_queue with
    | nil =>
      intro _
      simp [hq]
    | cons pid rest =>
      intro hpos
      have hcount : 0 < s.count := hpos
      have := h hcount
      rw [hq] at this
      exact absurd this (by simp)

lemma semInvariant_run (s : Semaphore) (ops : List SemOp) (h : semInvariant s) :
    semInvariant (s.run ops) := by
  induction ops generalizing s with
  | nil => exact h
  | cons op rest ih => exact ih (s.step op) (semInvariant_step s op h)

lemma find_map_replace (l : List (Nat × Semaphore)) (key : Nat)
    (fresh old : Semaphore)
    (h : l.find? (fun kv => kv.1 == key) = some (key, old)) :
    (l.map (fun kv => if kv.1 == key then (key, fresh) else kv)).find?
      (fun kv => kv.1 == key) = some (key, fresh) := by
  induction l with
  | nil => simp at h
  | cons kv rest ih =>
    by_cases hk : kv.1 = key
    · have hb : (kv.1 == key) = true := by simpa using hk
      rw [List.map_cons, if_pos hb, List.find?_cons_of_pos _ (by simp)]
    · have hne : (kv.1 == key) = false := by simpa using hk
      rw [List.find?_cons_of_neg _ (by simp [hne])] at h
      rw [List.map_cons, if_neg (by simp [hne]),
        List.find?_cons_of_neg _ (by simp [hne])]
      exact ih h

lemma find_eq_key (l : List (Nat × Semaphore)) (key : Nat) (kv : Nat × Semaphore)
    (h : l.find? (fun p => p.1 == key) = some kv) : kv = (key, kv.2) := by
  have := List.find?_some h
  have h1 : kv.1 = key := by simpa using this
  cases kv
  simp_all

lemma pidCounterAfter_closed (k : Nat) :
    pidCounterAfter k = (PID_START + k) % U16_MOD := by
  induction k with
  | zero => rfl
  | succ k ih =>
    simp only [pidCounterAfter, pidFetchAdd, ih, PID_START, U16_MOD]
    omega

lemma pidAt_closed (k : Nat) : pidAt k = (2 + k) % 65536 := by
  have h := pidCounterAfter_closed k
  simp only [pidAt, pidFetchAdd, h, PID_START, U16_MOD]

lemma heapGrowLoop_mono (l : List Nat) (m : Mapper) (p : Nat)
    (h : m.mapped p = true) : (heapGrowLoop m l).1.mapped p = true := by
  induction l generalizing m with
  | nil => exact h
  | cons q rest ih =>
    simp only [heapGrowLoop]
    by_cases hb : m.budget = 0
    · simp [hb, h]
    · simp only [if_neg hb]
      by_cases hm : m.mapped q = true
      · simp [hm, h]
      · rw [if_neg hm]
        exact ih (m.mapPage q) (by by_cases hpq : p = q <;> simp [Mapper.mapPage, hpq, h])

lemma heapGrowLoop_maps (l : List Nat) (m m1 : Mapper)
    (h : heapGrowLoop m l = (m1, true)) :
    ∀ p ∈ l, m1.mapped p = true := by
  induction l generalizing m with
  | nil => simp
  | cons q rest ih =>
    simp only [heapGrowLoop] at h
    by_cases hb : m.budget = 0
    · rw [if_pos hb] at h
      exact absurd (congrArg Prod.snd h) (by simp)
    · rw [if_neg hb] at h
      by_cases hm : m.mapped q = true
      · rw [if_pos hm] at h
        exact absurd (congrArg Prod.snd h) (by simp)
      · rw [if_neg hm] at h
        intro p hp
        rcases List.mem_cons.mp hp with hpq | hpr
        · subst hpq
          have hstep : (m.mapPage p).mapped p = true := by
            simp [Mapper.mapPage]
          have := heapGrowLoop_mono rest (m.mapPage p) p hstep
          rw [h] at this
          exact this
        · exact ih (m.mapPage q) h p hpr

lemma heapGrowLoop_fst_mono (l : List Nat) (m : Mapper) (p : Nat)
    (h : m.mapped p = true) : (heapGrowLoop m l).1.mapped p = true :=
  heapGrowLoop_mono l m p h

/-- `brk(None)` in isolation. -/
lemma brk_none_query (h : Heap) (m : Mapper) :
    h.brk m none = (h, m, some h.endAddr) := rfl

/-- Every successful `brk(Some target)` stores exactly `target` and
returns it. -/
lemma brk_some_success (h : Heap) (m : Mapper) (x : Nat) (h1 : Heap)
    (m1 : Mapper) (v : Nat) (hr : h.brk m (some x) = (h1, m1, some v)) :
    v = x ∧ h1.endAddr = x ∧ h1.base = h.base := by
  simp only [Heap.brk] at hr
  by_cases hbound : x < HEAP_START ∨ HEAP_END < x
  · rw [if_pos hbound] at hr
    have hcontra : (none : Option Nat) = some v := congrArg (fun t => t.2.2) hr
    simp at hcontra
  · rw [if_neg hbound] at hr
    by_cases hbase : x = h.base
    · rw [if_pos hbase] at hr
      have he : ({ h with endAddr := h.base } : Heap) = h1 := congrArg (fun t => t.1) hr
      have hv : some h.base = some v := congrArg (fun t => t.2.2) hr
      simp only [Option.some.injEq] at hv
      refine ⟨by omega, ?_, ?_⟩
      · rw [← he]
        simp [hbase]
      · rw [← he]
    · rw [if_neg hbase] at hr
      by_cases hsh : alignUp x < alignUp h.endAddr
      · rw [if_pos hsh] at hr
        have he : ({ h with endAddr := x } : Heap) = h1 := congrArg (fun t => t.1) hr
        have hv : some x = some v := congrArg (fun t => t.2.2) hr
        simp only [Option.some.injEq] at hv
        refine ⟨hv.symm, ?_, ?_⟩ <;> rw [← he]
      · rw [if_neg hsh] at hr
        by_cases hgr : alignUp h.endAddr < alignUp x
        · rw [if_pos hgr] at hr
          by_cases hok : (heapGrowLoop m (pageRangeInclusive (pageOf (alignUp h.endAddr)) (pageOf (alignUp x - 1)))).2 = true
          · rw [if_pos hok] at hr
            have he : ({ h with endAddr := x } : Heap) = h1 := congrArg (fun t => t.1) hr
            have hv : some x = some v := congrArg (fun t => t.2.2) hr
            simp only [Option.some.injEq] at hv
            refine ⟨hv.symm, ?_, ?_⟩ <;> rw [← he]
          · rw [if_neg hok] at hr
            have hcontra : (none : Option Nat) = some v := congrArg (fun t => t.2.2) hr
            simp at hcontra
        · rw [if_neg hgr] at hr
          have he : ({ h with endAddr := x } : Heap) = h1 := congrArg (fun t => t.1) hr
          have hv : some x = some v := congrArg (fun t => t.2.2) hr
          simp only [Option.some.injEq] at hv
          refine ⟨hv.symm, ?_, ?_⟩ <;> rw [← he]

/-! ## Claim C8 -/

/-- C8: `brk(None)` is a pure query returning the current end and changing
no state; every successful `brk(Some x)` stores exactly `x`, so an
immediately following `brk(None)` returns `x`; and `brk(Some base)`
(full release) succeeds, returns `base`, drops the memory-usage accounting
to zero, and a following `brk(None)` returns `base`. -/
theorem c8_brk_round_trip :
    (∀ (h : Heap) (m : Mapper), h.brk m none = (h, m, some h.endAddr)) ∧
    (∀ (h : Heap) (m : Mapper) (x : Nat) (h1 : Heap) (m1 : Mapper) (v : Nat),
      h.brk m (some x) = (h1, m1, some v) →
        v = x ∧ h1.brk m1 none = (h1, m1, some x)) ∧
    (∀ (h : Heap) (m : Mapper) (h1 : Heap) (m1 : Mapper) (v : Option Nat),
      h.base = HEAP_START → h.brk m (some h.base) = (h1, m1, v) →
        v = some h.base ∧ h1.memory_usage = 0 ∧
          h1.brk m1 none = (h1, m1, some h.base)) := by
  refine ⟨fun h m => rfl, ?_, ?_⟩
  · intro h m x h1 m1 v hr
    obtain ⟨hv, he, _⟩ := brk_some_success h m x h1 m1 v hr
    refine ⟨hv, ?_⟩
    rw [brk_none_query, he]
  · intro h m h1 m1 v hbase hr
    simp only [Heap.brk] at hr
    rw [if_neg (by rw [hbase]; norm_num [HEAP_START, HEAP_END, HEAP_SIZE, HEAP_PAGES, PAGE_SIZE])] at hr
    simp only [if_true] at hr
    have he : ({ h with endAddr := h.base } : Heap) = h1 := congrArg (fun t => t.1) hr
    have hv : (some h.base : Option Nat) = v := congrArg (fun t => t.2.2) hr
    refine ⟨hv.symm, ?_, ?_⟩
    · rw [← he]
      simp [Heap.memory_usage]
    · rw [brk_none_query, ← he]

theorem c8_brk_round_trip_witness :
    (HEAP_START + PAGE_SIZE) = (HEAP_START + PAGE_SIZE) ∧
      (Heap.mk HEAP_START (HEAP_START + PAGE_SIZE)).brk
          (Mapper.mapPage (Mapper.mk (fun _ => false) 5) 8589934592) none =
        (Heap.mk HEAP_START (HEAP_START + PAGE_SIZE),
          Mapper.mapPage (Mapper.mk (fun _ => false) 5) 8589934592,
          some (HEAP_START + PAGE_SIZE)) :=
  c8_brk_round_trip.2.1 Heap.empty (Mapper.mk (fun _ => false) 5)
    (HEAP_START + PAGE_SIZE) (Heap.mk HEAP_START (HEAP_START + PAGE_SIZE))
    (Mapper.mapPage (Mapper.mk (fun _ => false) 5) 8589934592)
    (HEAP_START + PAGE_SIZE) rfl

/-! ## Claim C7 (corrected) -/

/-- C7 counterexample: growing the empty heap by two pages with only one
free frame fails after mapping the first page; the stored end value is
left unchanged (that half of the claim holds) but the frame already
allocated and mapped for the call is NOT rolled back — its page stays
mapped — refuting the rollback half of the claim. -/
theorem c7_brk_rollback_counterexample :
    (Heap.empty.brk (Mapper.mk (fun _ => false) 1) (some (HEAP_START + 2 * PAGE_SIZE))).2.2 = none ∧
      (Heap.empty.brk (Mapper.mk (fun _ => false) 1) (some (HEAP_START + 2 * PAGE_SIZE))).1.endAddr = HEAP_START ∧
      (Heap.empty.brk (Mapper.mk (fun _ => false) 1) (some (HEAP_START + 2 * PAGE_SIZE))).2.1.mapped (pageOf HEAP_START) = true :=
  ⟨rfl, rfl, rfl⟩

/-- C7 amended: for a growth `brk` (target above the current aligned end,
within bounds, not the base), frames are mapped page by page from the old
page-aligned end up to the new page-aligned end; if a frame allocation
fails mid-way, the stored heap end value is left unchanged and the call
reports failure, but frame allocations already made for that call are NOT
rolled back: the grow path never unmaps a page. (The source also never
zero-fills the freshly mapped frames.) -/
theorem c7_brk_grow (h : Heap) (m : Mapper) (x : Nat) (h1 : Heap)
    (m1 : Mapper) (res : Option Nat)
    (hlo : ¬ (x < HEAP_START ∨ HEAP_END < x)) (hnb : x ≠ h.base)
    (hgr : alignUp h.endAddr < alignUp x)
    (hr : h.brk m (some x) = (h1, m1, res)) :
    (res = none → h1 = h ∧ ∀ p, m.mapped p = true → m1.mapped p = true) ∧
    (res = some x →
      h1.endAddr = x ∧
        ∀ p ∈ pageRangeInclusive (pageOf (alignUp h.endAddr)) (pageOf (alignUp x - 1)),
          m1.mapped p = true) := by
  simp only [Heap.brk] at hr
  rw [if_neg hlo, if_neg hnb, if_neg (by omega), if_pos hgr] at hr
  by_cases hok :
      (heapGrowLoop m (pageRangeInclusive (pageOf (alignUp h.endAddr)) (pageOf (alignUp x - 1)))).2 = true
  · rw [if_pos hok] at hr
    have he : ({ h with endAddr := x } : Heap) = h1 := congrArg (fun t => t.1) hr
    have hm :
        (heapGrowLoop m (pageRangeInclusive (pageOf (alignUp h.endAddr)) (pageOf (alignUp x - 1)))).1 = m1 :=
      congrArg (fun t => t.2.1) hr
    have hv : (some x : Option Nat) = res := congrArg (fun t => t.2.2) hr
    constructor
    · intro hn
      rw [← hv] at hn
      simp at hn
    · intro _
      constructor
      · rw [← he]
      · intro p hp
        have hloop :
            heapGrowLoop m (pageRangeInclusive (pageOf (alignUp h.endAddr)) (pageOf (alignUp x - 1))) =
              (m1, true) := by
          rw [Prod.ext_iff]
          exact ⟨hm, hok⟩
        exact heapGrowLoop_maps _ m m1 hloop p hp
  · rw [if_neg hok] at hr
    have he : h = h1 := congrArg (fun t => t.1) hr
    have hm :
        (heapGrowLoop m (pageRangeInclusive (pageOf (alignUp h.endAddr)) (pageOf (alignUp x - 1)))).1 = m1 :=
      congrArg (fun t => t.2.1) hr
    have hv : (none : Option Nat) = res := congrArg (fun t => t.2.2) hr
    constructor
    · intro _
      refine ⟨he.symm, fun p hp => ?_⟩
      rw [← hm]
      exact heapGrowLoop_mono _ m p hp
    · intro hs
      rw [← hv] at hs
      simp at hs

theorem c7_brk_grow_witness :
    (Heap.mk HEAP_START (HEAP_START + 2 * PAGE_SIZE)).endAddr = HEAP_START + 2 * PAGE_SIZE ∧
      (Mapper.mapPage (Mapper.mapPage (Mapper.mk (fun _ => false) 5) 8589934592) 8589934593).mapped 8589934592 = true :=
  have h := c7_brk_grow Heap.empty (Mapper.mk (fun _ => false) 5)
    (HEAP_START + 2 * PAGE_SIZE) (Heap.mk HEAP_START (HEAP_START + 2 * PAGE_SIZE))
    (Mapper.mapPage (Mapper.mapPage (Mapper.mk (fun _ => false) 5) 8589934592) 8589934593)
    (some (HEAP_START + 2 * PAGE_SIZE))
    (by decide) (by decide) (by decide) rfl
  ⟨(h.2 rfl).1, (h.2 rfl).2 8589934592 (by decide)⟩

lemma pageRange_mem (s e p : Nat) : p ∈ pageRange s e ↔ s ≤ p ∧ p < e := by
  simp only [pageRange, List.mem_map, List.mem_range]
  constructor
  · rintro ⟨i, hi, rfl⟩
    omega
  · rintro ⟨h1, h2⟩
    exact ⟨p - s, by omega, by omega⟩

lemma pageRange_nodup (s e : Nat) : (pageRange s e).Nodup := by
  refine List.Nodup.map ?_ (List.nodup_range _)
  intro a b hab
  simp only at hab
  omega

lemma pageRange_length (s e : Nat) : (pageRange s e).length = e - s := by
  simp [pageRange]

lemma mapPagesStrict_success (l : List Nat) : ∀ (m : Mapper),
    l.Nodup → (∀ p ∈ l, m.mapped p = false) → l.length ≤ m.budget →
    ∃ m1, mapPagesStrict m l = (m1, true) ∧
      (∀ p ∈ l, m1.mapped p = true) ∧
      (∀ p, p ∉ l → m1.mapped p = m.mapped p) ∧
      m1.budget = m.budget - l.length := by
  induction l with
  | nil =>
    intro m _ _ _
    exact ⟨m, rfl, by simp, fun p _ => rfl, by simp⟩
  | cons q rest ih =>
    intro m hnd hfree hbud
    have hb0 : ¬ m.budget = 0 := by
      simp only [List.length_cons] at hbud
      omega
    have hq : m.mapped q = false := hfree q (List.mem_cons_self q rest)
    have hndc := List.nodup_cons.mp hnd
    have hfreeRest : ∀ p ∈ rest, (m.mapPage q).mapped p = false := by
      intro p hp
      have hpq : p ≠ q := fun hEq => hndc.1 (hEq ▸ hp)
      simpa [Mapper.mapPage, hpq] using hfree p (List.mem_cons_of_mem q hp)
    have hbudRest : rest.length ≤ (m.mapPage q).budget := by
      simp only [Mapper.mapPage, List.length_cons] at *
      omega
    obtain ⟨m1, hrec, hin, hout, hbudget⟩ := ih (m.mapPage q) hndc.2 hfreeRest hbudRest
    refine ⟨m1, ?_, ?_, ?_, ?_⟩
    · simp only [mapPagesStrict, if_neg hb0]
      rw [if_neg (by simp [hq])]
      exact hrec
    · intro p hp
      rcases List.mem_cons.mp hp with rfl | hpr
      · by_cases hqin : p ∈ rest
        · exact hin p hqin
        · rw [hout p hqin]
          simp [Mapper.mapPage]
      · exact hin p hpr
    · intro p hp
      have hp1 : p ≠ q := fun hEq => hp (hEq ▸ List.mem_cons_self q rest)
      have hp2 : p ∉ rest := fun hr => hp (List.mem_cons_of_mem q hr)
      rw [hout p hp2]
      simp [Mapper.mapPage, hp1]
    · rw [hbudget]
      simp only [Mapper.mapPage, List.length_cons]
      omega

lemma unmapPagesLenient_mono (l : List Nat) : ∀ (m : Mapper) (p : Nat),
    (unmapPagesLenient m l).mapped p = true → m.mapped p = true := by
  induction l with
  | nil => intro m p h; exact h
  | cons q rest ih =>
    intro m p h
    simp only [unmapPagesLenient] at h
    by_cases hm : m.mapped q = true
    · rw [if_pos hm] at h
      have hrec := ih (m.unmapPage q) p h
      by_cases hpq : p = q
      · subst hpq
        simp [Mapper.unmapPage] at hrec
      · simpa [Mapper.unmapPage, hpq] using hrec
    · rw [if_neg hm] at h
      exact ih m p h

lemma unmapPagesLenient_not_mem (l : List Nat) : ∀ (m : Mapper) (p : Nat),
    p ∉ l → (unmapPagesLenient m l).mapped p = m.mapped p := by
  induction l with
  | nil => intro m p _; rfl
  | cons q rest ih =>
    intro m p hp
    have hpq : p ≠ q := fun hEq => hp (hEq ▸ List.mem_cons_self q rest)
    have hpr : p ∉ rest := fun hr => hp (List.mem_cons_of_mem q hr)
    simp only [unmapPagesLenient]
    by_cases hm : m.mapped q = true
    · rw [if_pos hm, ih (m.unmapPage q) p hpr]
      simp [Mapper.unmapPage, hpq]
    · rw [if_neg hm]
      exact ih m p hpr

lemma unmapPagesLenient_unmaps (l : List Nat) : ∀ (m : Mapper) (p : Nat),
    p ∈ l → (unmapPagesLenient m l).mapped p = false := by
  induction l with
  | nil => intro m p h; simp at h
  | cons q rest ih =>
    intro m p hp
    simp only [unmapPagesLenient]
    rcases List.mem_cons.mp hp with rfl | hpr
    · by_cases hm : m.mapped p = true
      · rw [if_pos hm]
        by_cases hmem : p ∈ rest
        · exact ih _ p hmem
        · rw [unmapPagesLenient_not_mem rest _ p hmem]
          simp [Mapper.unmapPage]
      · rw [if_neg hm]
        by_cases hmem : p ∈ rest
        · exact ih m p hmem
        · rw [unmapPagesLenient_not_mem rest m p hmem]
          exact Bool.not_eq_true _ ▸ (by simpa using hm)
    · by_cases hm : m.mapped q = true
      · rw [if_pos hm]
        exact ih _ p hpr
      · rw [if_neg hm]
        exact ih m p hpr

lemma unmapPagesStrict_spec (l : List Nat) : ∀ (m m1 : Mapper),
    unmapPagesStrict m l = some m1 →
    (∀ p ∈ l, m1.mapped p = false) ∧
      (∀ p, p ∉ l → m1.mapped p = m.mapped p) := by
  induction l with
  | nil =>
    intro m m1 h
    simp only [unmapPagesStrict, Option.some.injEq] at h
    subst h
    exact ⟨by simp, fun p _ => rfl⟩
  | cons q rest ih =>
    intro m m1 h
    simp only [unmapPagesStrict] at h
    by_cases hm : m.mapped q = true
    · rw [if_pos hm] at h
      obtain ⟨hin, hout⟩ := ih (m.unmapPage q) m1 h
      constructor
      · intro p hp
        rcases List.mem_cons.mp hp with rfl | hpr
        · by_cases hmem : p ∈ rest
          · exact hin p hmem
          · rw [hout p hmem]
            simp [Mapper.unmapPage]
        · exact hin p hpr
      · intro p hp
        have hpq : p ≠ q := fun hEq => hp (hEq ▸ List.mem_cons_self q rest)
        have hpr : p ∉ rest := fun hr => hp (List.mem_cons_of_mem q hr)
        rw [hout p hpr]
        simp [Mapper.unmapPage, hpq]
    · rw [if_neg hm] at h
      simp at h

lemma code_unmap_mono (code : List (Nat × Nat)) : ∀ (m : Mapper) (p : Nat),
    (code.foldl unmap_range m).mapped p = true → m.mapped p = true := by
  induction code with
  | nil => intro m p h; exact h
  | cons rg rest ih =>
    intro m p h
    exact unmapPagesLenient_mono (pageRangeInclusive rg.1 rg.2) m p (ih (unmap_range m rg) p h)

lemma code_unmap_unmaps (code : List (Nat × Nat)) : ∀ (m : Mapper) (rg : Nat × Nat) (p : Nat),
    rg ∈ code → p ∈ pageRangeInclusive rg.1 rg.2 →
    (code.foldl unmap_range m).mapped p = false := by
  induction code with
  | nil => intro m rg p h _; simp at h
  | cons rg0 rest ih =>
    intro m rg p hrg hp
    rcases List.mem_cons.mp hrg with rfl | hmem
    · simp only [List.foldl_cons]
      cases hres : (rest.foldl unmap_range (unmap_range m rg)).mapped p with
      | false => rfl
      | true =>
        have h1 := code_unmap_mono rest (unmap_range m rg) p hres
        have h2 : (unmap_range m rg).mapped p = false :=
          unmapPagesLenient_unmaps _ m p hp
        rw [h1] at h2
        exact absurd h2 (by simp)
    · simp only [List.foldl_cons]
      exact ih (unmap_range m rg0) rg p hmem hp

lemma stack_clean_up_spec (s : Stack) (m : Mapper) (s1 : Stack) (m1 : Mapper)
    (h : s.clean_up m = some (s1, m1)) :
    (s.usage ≠ 0 → ∀ p ∈ pageRange s.rangeStart s.rangeEnd, m1.mapped p = false) ∧
      (∀ p, p ∉ pageRange s.rangeStart s.rangeEnd → m1.mapped p = m.mapped p) := by
  by_cases hu : s.usage = 0
  · rw [Stack.clean_up, if_pos hu] at h
    have hm1 : m = m1 := congrArg (fun t => t.2) (Option.some.inj h)
    exact ⟨fun hne => absurd hu hne, fun p _ => by rw [← hm1]⟩
  · rw [Stack.clean_up, if_neg hu] at h
    cases hstrict : unmapPagesStrict m (pageRange s.rangeStart s.rangeEnd) with
    | none => rw [hstrict] at h; simp at h
    | some m2 =>
      rw [hstrict] at h
      simp only [Option.some.injEq] at h
      have hm2 : m2 = m1 := congrArg (fun t => t.2) h
      obtain ⟨hin, hout⟩ := unmapPagesStrict_spec _ m m2 hstrict
      subst hm2
      exact ⟨fun _ => hin, hout⟩

lemma heap_clean_up_spec (h : Heap) (m : Mapper) :
    (h.memory_usage ≠ 0 →
      ∀ p ∈ pageRangeInclusive (pageOf h.base) (pageOf (h.endAddr - 1)),
        (h.clean_up m).2.mapped p = false) ∧
      (∀ p, p ∉ pageRangeInclusive (pageOf h.base) (pageOf (h.endAddr - 1)) →
        (h.clean_up m).2.mapped p = m.mapped p) := by
  by_cases hu : h.memory_usage = 0
  · constructor
    · intro hne
      exact absurd hu hne
    · intro p _
      simp [Heap.clean_up, if_pos hu]
  · simp only [Heap.clean_up, if_neg hu]
    exact ⟨fun _ p hp => unmapPagesLenient_unmaps _ m p hp,
      fun p hp => unmapPagesLenient_not_mem _ m p hp⟩

lemma heap_clean_up_mono (h : Heap) (m : Mapper) (p : Nat)
    (hp : (h.clean_up m).2.mapped p = true) : m.mapped p = true := by
  by_cases hu : h.memory_usage = 0
  · simpa [Heap.clean_up, if_pos hu] using hp
  · simp only [Heap.clean_up, if_neg hu] at hp
    exact unmapPagesLenient_mono _ m p hp

lemma vm_clean_up_cases (vm : ProcessVm) (m : Mapper) (rc : Nat)
    (r : ProcessVm × Mapper × Bool) (h : vm.clean_up m rc = some r) :
    ∃ s1 m1, vm.stack.clean_up m = some (s1, m1) ∧
      ((rc = 1 ∧
          r = ({ vm with stack := s1, heap := (vm.heap.clean_up m1).1 },
            { vm.code.foldl unmap_range (vm.heap.clean_up m1).2 with budget := (vm.code.foldl unmap_range (vm.heap.clean_up m1).2).budget + 1 }, true)) ∨
        (¬ rc = 1 ∧ r = ({ vm with stack := s1 }, m1, false))) := by
  unfold ProcessVm.clean_up at h
  cases hst : vm.stack.clean_up m with
  | none => rw [hst] at h; simp at h
  | some sm =>
    simp only [hst] at h
    by_cases hrc : rc = 1
    · simp only [if_pos hrc, Option.some.injEq] at h
      exact ⟨sm.1, sm.2, rfl, Or.inl ⟨hrc, h.symm⟩⟩
    · simp only [if_neg hrc, Option.some.injEq] at h
      exact ⟨sm.1, sm.2, rfl, Or.inr ⟨hrc, h.symm⟩⟩

/-- The root (P4) frame is freed exactly when the refcount is 1. -/
lemma vm_clean_up_root (vm : ProcessVm) (m : Mapper) (rc : Nat)
    (r : ProcessVm × Mapper × Bool) (h : vm.clean_up m rc = some r) :
    r.2.2 = true ↔ rc = 1 := by
  obtain ⟨s1, m1, _, hbr | hbr⟩ := vm_clean_up_cases vm m rc r h
  · rw [hbr.2]
    simp [hbr.1]
  · rw [hbr.2]
    simp [hbr.1]

/-- The dying process's stack pages are always unmapped. -/
lemma vm_clean_up_stack_pages (vm : ProcessVm) (m : Mapper) (rc : Nat)
    (r : ProcessVm × Mapper × Bool) (h : vm.clean_up m rc = some r)
    (hu : vm.stack.usage ≠ 0) :
    ∀ p ∈ pageRange vm.stack.rangeStart vm.stack.rangeEnd, r.2.1.mapped p = false := by
  obtain ⟨s1, m1, hst, hbr | hbr⟩ := vm_clean_up_cases vm m rc r h
  · intro p hp
    have hm1 := (stack_clean_up_spec vm.stack m s1 m1 hst).1 hu p hp
    rw [hbr.2]
    cases hb : (vm.code.foldl unmap_range (vm.heap.clean_up m1).2).mapped p with
    | false => rfl
    | true =>
      have h2 := code_unmap_mono vm.code (vm.heap.clean_up m1).2 p hb
      have h3 := heap_clean_up_mono vm.heap m1 p h2
      rw [hm1] at h3
      exact absurd h3 (by simp)
  · intro p hp
    rw [hbr.2]
    exact (stack_clean_up_spec vm.stack m s1 m1 hst).1 hu p hp

/-- With refcount ≠ 1, nothing outside the dying stack's range changes. -/
lemma vm_clean_up_keeps (vm : ProcessVm) (m : Mapper) (rc : Nat)
    (r : ProcessVm × Mapper × Bool) (h : vm.clean_up m rc = some r)
    (hrc : ¬ rc = 1) :
    ∀ p, p ∉ pageRange vm.stack.rangeStart vm.stack.rangeEnd →
      r.2.1.mapped p = m.mapped p := by
  obtain ⟨s1, m1, hst, hbr | hbr⟩ := vm_clean_up_cases vm m rc r h
  · exact absurd hbr.1 hrc
  · intro p hp
    rw [hbr.2]
    exact (stack_clean_up_spec vm.stack m s1 m1 hst).2 p hp

/-- With refcount 1, the heap pages are unmapped and freed. -/
lemma vm_clean_up_heap_pages (vm : ProcessVm) (m : Mapper)
    (r : ProcessVm × Mapper × Bool) (h : vm.clean_up m 1 = some r)
    (hu : vm.heap.memory_usage ≠ 0) :
    ∀ p ∈ pageRangeInclusive (pageOf vm.heap.base) (pageOf (vm.heap.endAddr - 1)),
      r.2.1.mapped p = false := by
  obtain ⟨s1, m1, hst, hbr | hbr⟩ := vm_clean_up_cases vm m 1 r h
  · intro p hp
    have hheap := (heap_clean_up_spec vm.heap m1).1 hu p hp
    rw [hbr.2]
    cases hb : (vm.code.foldl unmap_range (vm.heap.clean_up m1).2).mapped p with
    | false => rfl
    | true =>
      have h2 := code_unmap_mono vm.code (vm.heap.clean_up m1).2 p hb
      rw [hheap] at h2
      exact absurd h2 (by simp)
  · exact absurd rfl hbr.1

/-- With refcount 1, the owned code ranges are unmapped and freed. -/
lemma vm_clean_up_code_pages (vm : ProcessVm) (m : Mapper)
    (r : ProcessVm × Mapper × Bool) (h : vm.clean_up m 1 = some r)
    (rg : Nat × Nat) (hrg : rg ∈ vm.code) :
    ∀ p ∈ pageRangeInclusive rg.1 rg.2, r.2.1.mapped p = false := by
  obtain ⟨s1, m1, hst, hbr | hbr⟩ := vm_clean_up_cases vm m 1 r h
  · intro p hp
    rw [hbr.2]
    exact code_unmap_unmaps vm.code (vm.heap.clean_up m1).2 rg p hrg hp
  · exact absurd rfl hbr.1

/-! ## Claim C1 -/

/-- C1: on teardown (`ProcessVm::clean_up`) the dying process's stack
pages are always unmapped and their frames freed; the heap pages, the
owned code ranges, and the page-table root frame are freed exactly when
the page-table handle's reference count is 1, and with a larger refcount
nothing outside the dying stack's range is touched. Consequently, for a
parent with one forked child (shared handle, refcount 2 at the child's
death), killing the child does not unmap the shared heap or the parent's
code, and killing the parent afterwards (refcount 1) frees heap, code,
and the table root. -/
theorem c1_teardown_refcount :
    (∀ (vm : ProcessVm) (m : Mapper) (rc : Nat) (r : ProcessVm × Mapper × Bool),
      vm.clean_up m rc = some r → (r.2.2 = true ↔ rc = 1)) ∧
    (∀ (vm : ProcessVm) (m : Mapper) (rc : Nat) (r : ProcessVm × Mapper × Bool),
      vm.clean_up m rc = some r → vm.stack.usage ≠ 0 →
      ∀ p ∈ pageRange vm.stack.rangeStart vm.stack.rangeEnd, r.2.1.mapped p = false) ∧
    (∀ (vm : ProcessVm) (m : Mapper) (rc : Nat) (r : ProcessVm × Mapper × Bool),
      vm.clean_up m rc = some r → ¬ rc = 1 →
      ∀ p, p ∉ pageRange vm.stack.rangeStart vm.stack.rangeEnd →
        r.2.1.mapped p = m.mapped p) ∧
    (∀ (vm : ProcessVm) (m : Mapper) (r : ProcessVm × Mapper × Bool),
      vm.clean_up m 1 = some r → vm.heap.memory_usage ≠ 0 →
      ∀ p ∈ pageRangeInclusive (pageOf vm.heap.base) (pageOf (vm.heap.endAddr - 1)),
        r.2.1.mapped p = false) ∧
    (∀ (vm : ProcessVm) (m : Mapper) (r : ProcessVm × Mapper × Bool) (rg : Nat × Nat),
      vm.clean_up m 1 = some r → rg ∈ vm.code →
      ∀ p ∈ pageRangeInclusive rg.1 rg.2, r.2.1.mapped p = false) ∧
    (∀ (parent child : ProcessVm) (m : Mapper) (r1 r2 : ProcessVm × Mapper × Bool),
      child.page_table = parent.page_table →
      child.clean_up m 2 = some r1 → parent.clean_up r1.2.1 1 = some r2 →
      r1.2.2 = false ∧ r2.2.2 = true ∧
        (∀ p, p ∉ pageRange child.stack.rangeStart child.stack.rangeEnd →
          r1.2.1.mapped p = m.mapped p) ∧
        (parent.heap.memory_usage ≠ 0 →
          ∀ p ∈ pageRangeInclusive (pageOf parent.heap.base) (pageOf (parent.heap.endAddr - 1)),
            r2.2.1.mapped p = false)) := by
  refine ⟨fun vm m rc r h => vm_clean_up_root vm m rc r h,
    fun vm m rc r h hu => vm_clean_up_stack_pages vm m rc r h hu,
    fun vm m rc r h hrc => vm_clean_up_keeps vm m rc r h hrc,
    fun vm m r h hu => vm_clean_up_heap_pages vm m r h hu,
    fun vm m r rg h hrg => vm_clean_up_code_pages vm m r h rg hrg, ?_⟩
  intro parent child m r1 r2 _ h1 h2
  refine ⟨?_, ?_, ?_, ?_⟩
  · have hiff := vm_clean_up_root child m 2 r1 h1
    cases hb : r1.2.2 with
    | false => rfl
    | true => exact absurd (hiff.mp hb) (by norm_num)
  · exact (vm_clean_up_root parent r1.2.1 1 r2 h2).mpr rfl
  · exact vm_clean_up_keeps child m 2 r1 h1 (by norm_num)
  · exact fun hu => vm_clean_up_heap_pages parent r1.2.1 r2 h2 hu

theorem c1_teardown_refcount_witness :
    exampleChildCleanup.2.2 = false ∧
      exampleParentCleanup.2.2 = true ∧
      exampleChildCleanup.2.1.mapped 8589934592 = true ∧
      exampleParentCleanup.2.1.mapped 8589934592 = false := by
  have h := c1_teardown_refcount.2.2.2.2.2 exampleParentVm exampleChildVm
    exampleMapper exampleChildCleanup exampleParentCleanup rfl rfl rfl
  refine ⟨h.1, h.2.1, ?_, ?_⟩
  · rw [h.2.2.1 8589934592 (by decide)]
    rfl
  · exact h.2.2.2 (by decide) 8589934592 (by decide)

lemma stack_fork_spec (s : Stack) (m : Mapper) (mem : Nat → Nat) (cnt : Nat)
    (r : Stack × Mapper × (Nat → Nat)) (h : s.fork m mem cnt = some r) :
    r.1.usage = s.usage ∧
      ∀ a, r.1.rangeStart * PAGE_SIZE ≤ a →
        a < r.1.rangeStart * PAGE_SIZE + s.usage * PAGE_SIZE →
        r.2.2 a = mem (s.rangeStart * PAGE_SIZE + (a - r.1.rangeStart * PAGE_SIZE)) := by
  unfold Stack.fork at h
  cases hfind : stackForkFind m s.usage (cnt + 1) 10 with
  | none => rw [hfind] at h; simp at h
  | some rg =>
    simp only [hfind] at h
    by_cases hmap : (mapPagesStrict m (pageRange rg.1 rg.2)).2 = true
    · rw [if_pos hmap] at h
      have h' := (Option.some.inj h).symm
      subst h'
      refine ⟨rfl, ?_⟩
      intro a h1 h2
      exact if_pos ⟨h1, h2⟩
    · rw [if_neg hmap] at h
      simp at h

lemma process_vm_fork_spec (vm : ProcessVm) (m : Mapper) (mem : Nat → Nat) (cnt : Nat)
    (rv : ProcessVm × Mapper × (Nat → Nat)) (h : vm.fork m mem cnt = some rv) :
    ∃ rs, vm.stack.fork m mem cnt = some rs ∧
      rv = (ProcessVm.mk vm.page_table rs.1 vm.heap [] 0, rs.2.1, rs.2.2) := by
  unfold ProcessVm.fork at h
  cases hf : vm.stack.fork m mem cnt with
  | none => rw [hf] at h; simp at h
  | some rs =>
    simp only [hf] at h
    exact ⟨rs, rfl, (Option.some.inj h).symm⟩

lemma process_inner_fork_spec (p : ProcessInner) (m : Mapper) (mem : Nat → Nat)
    (vm : ProcessVm) (pd : ProcessData)
    (r : ProcessInner × Mapper × (Nat → Nat))
    (hvm : p.proc_vm = some vm) (hpd : p.proc_data = some pd)
    (h : p.fork m mem = some r) :
    ∃ rv, vm.fork m mem p.childrenCount = some rv ∧
      r = (ProcessInner.mk ProgramStatus.Ready
            (ProcessContext.mk 0 (rv.1.stack.start_address + (p.context.rsp - vm.stack.start_address)))
            0 none 0 (some pd) (some rv.1), rv.2.1, rv.2.2) := by
  unfold ProcessInner.fork at h
  simp only [hvm, hpd] at h
  cases hfork : vm.fork m mem p.childrenCount with
  | none => simp [hfork] at h
  | some rv =>
    simp only [hfork] at h
    exact ⟨rv, rfl, (Option.some.inj h).symm⟩

lemma process_fork_spec (p : ProcessInner) (childPid : Nat) (m : Mapper) (mem : Nat → Nat)
    (r : ProcessInner × ProcessInner × Mapper × (Nat → Nat))
    (h : Process.fork p childPid m mem = some r) :
    ∃ rc, p.fork m mem = some rc ∧
      r = ({ p with childrenCount := p.childrenCount + 1, context := { p.context with rax := childPid } }, rc.1, rc.2.1, rc.2.2) := by
  unfold Process.fork at h
  cases hf : p.fork m mem with
  | none => rw [hf] at h; simp at h
  | some rc =>
    simp only [hf] at h
    exact ⟨rc, rfl, (Option.some.inj h).symm⟩

/-! ## Claim C2 -/

/-- C2: after `fork()` on the current process, the parent's saved rax is
the child's pid; the child's saved rax is 0; the child's stack pointer
sits at the same byte offset from the child's stack base as the parent's
from its base; and the parent's stack bytes were copied verbatim, so
every byte of an 8-byte marker at the parent's stack pointer reads back
at the equivalent offset through the child's stack. -/
theorem c2_fork_semantics (p : ProcessInner) (childPid : Nat) (m : Mapper)
    (mem : Nat → Nat) (vm : ProcessVm)
    (r : ProcessInner × ProcessInner × Mapper × (Nat → Nat))
    (hvm : p.proc_vm = some vm)
    (hr : Process.fork p childPid m mem = some r)
    (hlo : vm.stack.start_address ≤ p.context.rsp)
    (hhi : p.context.rsp + 8 ≤ vm.stack.start_address + vm.stack.usage * PAGE_SIZE) :
    r.1.context.rax = childPid ∧
      r.2.1.context.rax = 0 ∧
      ∃ cvm, r.2.1.proc_vm = some cvm ∧
        r.2.1.context.rsp = cvm.stack.start_address + (p.context.rsp - vm.stack.start_address) ∧
        cvm.stack.usage = vm.stack.usage ∧
        ∀ i < 8, r.2.2.2 (r.2.1.context.rsp + i) = mem (p.context.rsp + i) := by
  obtain ⟨rc, hinner, hre⟩ := process_fork_spec p childPid m mem r hr
  cases hpd : p.proc_data with
  | none =>
    unfold ProcessInner.fork at hinner
    simp [hvm, hpd] at hinner
  | some pd =>
  obtain ⟨rv, hvmf, hrc⟩ := process_inner_fork_spec p m mem vm pd rc hvm hpd hinner
  obtain ⟨rs, hsf, hrv⟩ := process_vm_fork_spec vm m mem p.childrenCount rv hvmf
  obtain ⟨husage, hcopy⟩ := stack_fork_spec vm.stack m mem p.childrenCount rs hsf
  subst hre
  subst hrc
  subst hrv
  refine ⟨rfl, rfl, ProcessVm.mk vm.page_table rs.1 vm.heap [] 0, rfl, rfl, husage, ?_⟩
  intro i hi
  have hle : vm.stack.rangeStart * PAGE_SIZE ≤ p.context.rsp := hlo
  have hlt : p.context.rsp + 8 ≤ vm.stack.rangeStart * PAGE_SIZE + vm.stack.usage * PAGE_SIZE := hhi
  have hin1 : rs.1.rangeStart * PAGE_SIZE ≤
      rs.1.rangeStart * PAGE_SIZE + (p.context.rsp - vm.stack.rangeStart * PAGE_SIZE) + i := by
    omega
  have hin2 : rs.1.rangeStart * PAGE_SIZE + (p.context.rsp - vm.stack.rangeStart * PAGE_SIZE) + i <
      rs.1.rangeStart * PAGE_SIZE + vm.stack.usage * PAGE_SIZE := by
    omega
  have hcv := hcopy _ hin1 hin2
  have harg : vm.stack.rangeStart * PAGE_SIZE +
      (rs.1.rangeStart * PAGE_SIZE + (p.context.rsp - vm.stack.rangeStart * PAGE_SIZE) + i -
        rs.1.rangeStart * PAGE_SIZE) = p.context.rsp + i := by
    omega
  rw [harg] at hcv
  show rs.2.2 (rs.1.rangeStart * PAGE_SIZE + (p.context.rsp - vm.stack.rangeStart * PAGE_SIZE) + i) =
    mem (p.context.rsp + i)
  exact hcv

theorem c2_fork_semantics_witness :
    exampleForkResult.1.context.rax = 42 ∧
      exampleForkResult.2.1.context.rax = 0 ∧
      exampleForkResult.2.2.2 (exampleForkResult.2.1.context.rsp + 3) =
        exampleForkMem (exampleForkParent.context.rsp + 3) := by
  have h := c2_fork_semantics exampleForkParent 42 exampleForkMapper exampleForkMem
    exampleForkVm exampleForkResult rfl rfl (by decide) (by decide)
  obtain ⟨h1, h2, cvm, _, _, _, hmem⟩ := h
  exact ⟨h1, h2, hmem 3 (by norm_num)⟩

lemma switchLoop_skip (st : MgrState) (ctx : ProcessContext) (pid : Nat) (rest : List Nat)
    (h : st.skippable pid = true) :
    switchLoop st ctx (pid :: rest) = switchLoop st ctx rest := by
  unfold MgrState.skippable at h
  cases hp : st.procs pid with
  | none => simp [switchLoop, hp]
  | some p =>
    simp only [hp] at h
    have hne : ¬ p.status = ProgramStatus.Ready := by simpa using h
    simp [switchLoop, hp, hne]

lemma switchLoop_dispatch (st : MgrState) (ctx : ProcessContext) (pid : Nat)
    (rest : List Nat) (p : ProcessInner) (vm : ProcessVm)
    (hp : st.procs pid = some p) (hst : p.status = ProgramStatus.Ready)
    (hvm : p.proc_vm = some vm) :
    switchLoop st ctx (pid :: rest) =
      some ({ st.setProc pid p.resume with ready_queue := rest, current := pid },
        p.context, pid, false) := by
  simp [switchLoop, hp, hst, ProcessInner.restore, hvm]

lemma switchLoop_exhausted (st : MgrState) (ctx : ProcessContext) (k : ProcessInner)
    (vm : ProcessVm) (hk : st.procs KERNEL_PID = some k) (hvm : k.proc_vm = some vm) :
    switchLoop st ctx [] =
      some ({ st.setProc KERNEL_PID k.resume with ready_queue := [], current := KERNEL_PID },
        k.context, KERNEL_PID, st.current == KERNEL_PID) := by
  simp [switchLoop, hk, ProcessInner.restore, hvm]

lemma dispatchStream_fifo (ps : List Nat) : ∀ (st : MgrState) (ctx : ProcessContext),
    st.ready_queue = ps → ps.Nodup →
    (∀ pid ∈ ps, st.dispatchable pid = true) →
    dispatchStream st ctx ps.length = ps := by
  induction ps with
  | nil => intro st ctx _ _ _; rfl
  | cons pid rest ih =>
    intro st ctx hq hnd hall
    have hd := hall pid (List.mem_cons_self pid rest)
    unfold MgrState.dispatchable at hd
    cases hp : st.procs pid with
    | none => simp [hp] at hd
    | some p =>
      simp only [hp] at hd
      have hd' : p.status = ProgramStatus.Ready ∧ p.proc_vm.isSome = true := by
        simpa [Bool.and_eq_true] using hd
      have hst := hd'.1
      obtain ⟨vm, hvm⟩ := Option.isSome_iff_exists.mp hd'.2
      have hsw : st.switch_next ctx =
          some ({ st.setProc pid p.resume with ready_queue := rest, current := pid },
            p.context, pid, false) := by
        rw [MgrState.switch_next, hq]
        exact switchLoop_dispatch st ctx pid rest p vm hp hst hvm
      simp only [List.length_cons, dispatchStream, hsw, List.cons.injEq]
      refine ⟨trivial, ?_⟩
      apply ih
      · rfl
      · exact (List.nodup_cons.mp hnd).2
      · intro q hq2
        have hqp : ¬ q = pid := fun hEq => (List.nodup_cons.mp hnd).1 (hEq ▸ hq2)
        have hdq := hall q (List.mem_cons_of_mem pid hq2)
        unfold MgrState.dispatchable at hdq ⊢
        have hpq : ({ st.setProc pid p.resume with ready_queue := rest, current := pid } : MgrState).procs q = st.procs q := by
          simp [MgrState.setProc, hqp]
        rw [hpq]
        exact hdq

/-! ## Claim C4 -/

/-- C4: `switch_next` pops the ready queue FIFO; a popped candidate that
has vanished or is no longer Ready is dropped and the next tried; the
first genuinely-Ready candidate has its saved context restored, is
flipped to Running, and its pid returned — so N Ready processes enqueued
in order are dispatched in exactly that order, none twice before the
others; when the queue is exhausted, the kernel process (PID 1) is
restored and returned, with `hlt` issued exactly when the caller was
already PID 1. -/
theorem c4_switch_next_fifo :
    (∀ (st : MgrState) (ctx : ProcessContext) (ps : List Nat),
      st.ready_queue = ps → ps.Nodup →
      (∀ pid ∈ ps, st.dispatchable pid = true) →
      dispatchStream st ctx ps.length = ps) ∧
    (∀ (st : MgrState) (ctx : ProcessContext) (pid : Nat) (rest : List Nat),
      st.ready_queue = pid :: rest → st.skippable pid = true →
      st.switch_next ctx = switchLoop st ctx rest) ∧
    (∀ (st : MgrState) (ctx : ProcessContext) (pid : Nat) (rest : List Nat)
        (p : ProcessInner) (vm : ProcessVm),
      st.ready_queue = pid :: rest → st.procs pid = some p →
      p.status = ProgramStatus.Ready → p.proc_vm = some vm →
      st.switch_next ctx =
        some ({ st.setProc pid p.resume with ready_queue := rest, current := pid },
          p.context, pid, false)) ∧
    (∀ (st : MgrState) (ctx : ProcessContext) (k : ProcessInner) (vm : ProcessVm),
      st.ready_queue = [] → st.procs KERNEL_PID = some k → k.proc_vm = some vm →
      st.switch_next ctx =
        some ({ st.setProc KERNEL_PID k.resume with ready_queue := [], current := KERNEL_PID },
          k.context, KERNEL_PID, st.current == KERNEL_PID)) := by
  refine ⟨fun st ctx ps hq hnd hall => dispatchStream_fifo ps st ctx hq hnd hall, ?_, ?_, ?_⟩
  · intro st ctx pid rest hq hskip
    rw [MgrState.switch_next, hq]
    exact switchLoop_skip st ctx pid rest hskip
  · intro st ctx pid rest p vm hq hp hst hvm
    rw [MgrState.switch_next, hq]
    exact switchLoop_dispatch st ctx pid rest p vm hp hst hvm
  · intro st ctx k vm hq hk hvm
    rw [MgrState.switch_next, hq]
    exact switchLoop_exhausted st ctx k vm hk hvm

theorem c4_switch_next_fifo_witness :
    dispatchStream exampleMgr (ProcessContext.mk 0 0) 1 = [5] :=
  c4_switch_next_fifo.1 exampleMgr (ProcessContext.mk 0 0) [5] rfl (by decide) (by decide)

lemma wake_up_preserves_dead (st : MgrState) (pid q : Nat) (ret : Option Int)
    (p : ProcessInner) (hp : st.procs pid = some p)
    (hd : p.status = ProgramStatus.Dead) :
    (st.wake_up q ret).procs pid = some p := by
  unfold MgrState.wake_up
  cases hq : st.procs q with
  | none => exact hp
  | some pq =>
    by_cases hpidq : pid = q
    · subst hpidq
      have hpq_eq : pq = p := by rw [hq] at hp; exact Option.some.inj hp
      have hnb : ¬ pq.status = ProgramStatus.Blocked := by
        rw [hpq_eq, hd]
        decide
      simp [hnb, hp]
    · by_cases hb : pq.status = ProgramStatus.Blocked
      · simp [hb, MgrState.push_ready, MgrState.setProc, hpidq, hp]
      · simp [hb, hp]

lemma wake_up_foldl_preserves_dead (ws : List Nat) : ∀ (st : MgrState) (pid : Nat)
    (ret : Int) (p : ProcessInner), st.procs pid = some p →
    p.status = ProgramStatus.Dead →
    (ws.foldl (fun acc w => acc.wake_up w (some ret)) st).procs pid = some p := by
  induction ws with
  | nil => intro st pid ret p hp _; exact hp
  | cons w rest ih =>
    intro st pid ret p hp hd
    exact ih (st.wake_up w (some ret)) pid ret p
      (wake_up_preserves_dead st pid w (some ret) p hp hd) hd

lemma kill_preserves_dead (st : MgrState) (pid q : Nat) (ret : Int) (p : ProcessInner)
    (hp : st.procs pid = some p) (hd : p.status = ProgramStatus.Dead) :
    (st.kill q ret).procs pid = some p := by
  unfold MgrState.kill
  cases hq : st.procs q with
  | none => exact hp
  | some pq =>
    by_cases hpidq : pid = q
    · subst hpidq
      have hpq_eq : pq = p := by rw [hq] at hp; exact Option.some.inj hp
      have hdq : pq.status = ProgramStatus.Dead := by rw [hpq_eq]; exact hd
      simp [hdq, hp]
    · by_cases hdq : pq.status = ProgramStatus.Dead
      · simp [hdq, hp]
      · simp only [hdq, if_false, if_neg hdq]
        apply wake_up_foldl_preserves_dead
        · simp [MgrState.setProc, hpidq, hp]
        · exact hd

lemma save_current_pres (st : MgrState) (ctx : ProcessContext) (st1 : MgrState)
    (h : st.save_current ctx = some st1) (pid : Nat) (p : ProcessInner)
    (hp : st.procs pid = some p) :
    ∃ p1, st1.procs pid = some p1 ∧ p1.status = p.status ∧ p1.proc_vm = p.proc_vm ∧
      st1.current = st.current := by
  unfold MgrState.save_current at h
  cases hc : st.procs st.current with
  | none => simp [hc] at h
  | some pc =>
    simp only [hc] at h
    have hbody : st1.procs = (st.setProc st.current (pc.save ctx)).procs ∧ st1.current = st.current := by
      by_cases hr : pc.status = ProgramStatus.Ready
      · rw [if_pos hr] at h
        have h' := (Option.some.inj h).symm
        subst h'
        exact ⟨rfl, rfl⟩
      · rw [if_neg hr] at h
        have h' := (Option.some.inj h).symm
        subst h'
        exact ⟨rfl, rfl⟩
    by_cases hpq : pid = st.current
    · subst hpq
      have hpc : pc = p := by rw [hc] at hp; exact Option.some.inj hp
      refine ⟨pc.save ctx, ?_, by rw [hpc]; rfl, by rw [hpc]; rfl, hbody.2⟩
      rw [hbody.1]
      simp [MgrState.setProc]
    · refine ⟨p, ?_, rfl, rfl, hbody.2⟩
      rw [hbody.1]
      simp [MgrState.setProc, hpq, hp]

lemma switchLoop_preserves_dead (queue : List Nat) : ∀ (st : MgrState)
    (ctx : ProcessContext) (pid : Nat) (p : ProcessInner)
    (r : MgrState × ProcessContext × Nat × Bool),
    st.procs pid = some p → p.status = ProgramStatus.Dead → p.proc_vm = none →
    switchLoop st ctx queue = some r → r.1.procs pid = some p := by
  induction queue with
  | nil =>
    intro st ctx pid p r hp hd hv h
    simp only [switchLoop] at h
    cases hk : st.procs KERNEL_PID with
    | none => simp [hk] at h
    | some k =>
      simp only [hk] at h
      cases hkr : k.restore with
      | none => simp [hkr] at h
      | some kr =>
        simp only [hkr] at h
        by_cases hpk : pid = KERNEL_PID
        · subst hpk
          rw [hp] at hk
          have hkp : k = p := (Option.some.inj hk).symm
          subst hkp
          unfold ProcessInner.restore at hkr
          rw [hv] at hkr
          simp at hkr
        · have h' := Option.some.inj h
          subst h'
          simp [MgrState.setProc, hpk, hp]
  | cons q rest ih =>
    intro st ctx pid p r hp hd hv h
    simp only [switchLoop] at h
    cases hq : st.procs q with
    | none =>
      simp only [hq] at h
      exact ih st ctx pid p r hp hd hv h
    | some pq =>
      simp only [hq] at h
      by_cases hrq : pq.status = ProgramStatus.Ready
      · rw [if_pos hrq] at h
        cases hqr : pq.restore with
        | none => simp [hqr] at h
        | some qr =>
          simp only [hqr] at h
          have hne : ¬ pid = q := by
            intro hEq
            subst hEq
            rw [hp] at hq
            have : pq = p := (Option.some.inj hq).symm
            rw [this, hd] at hrq
            exact absurd hrq (by decide)
          have h' := Option.some.inj h
          subst h'
          simp [MgrState.setProc, hne, hp]
      · rw [if_neg hrq] at h
        exact ih st ctx pid p r hp hd hv h

/-! ## Claim C5 (corrected) -/

/-- C5 counterexample: `ProcessManager::block` performs no status check,
so calling it on a Dead process's pid moves the status from Dead to
Blocked — the Dead state is not terminal under `block`, refuting the
claim as stated. -/
theorem c5_dead_terminal_counterexample :
    (exampleDeadMgr.procs 5).map ProcessInner.status = some ProgramStatus.Dead ∧
      ((exampleDeadMgr.block 5).procs 5).map ProcessInner.status = some ProgramStatus.Blocked :=
  ⟨rfl, rfl⟩

/-- C5 amended: for a Dead process (data and vm dropped by `kill`), the
operations `kill`, `wake_up`, `save_current`, `switch_next` and `switch`
never change its status away from Dead, and `block` on a *different* pid
does not either; but `ProcessManager::block` on the dead pid itself
unconditionally sets the status to Blocked. Killing a live process sets
its status to Dead and drops `proc_data`/`proc_vm` together, so the
panicking readers (`Deref`, `vm()`) fail (modelled as `none`) rather
than return stale data. -/
theorem c5_dead_terminal (st : MgrState) (pid : Nat) (p : ProcessInner)
    (hp : st.procs pid = some p) (hd : p.status = ProgramStatus.Dead)
    (hv : p.proc_vm = none) :
    (∀ q ret, ((st.kill q ret).procs pid).map ProcessInner.status = some ProgramStatus.Dead) ∧
    (∀ q ret, ((st.wake_up q ret).procs pid).map ProcessInner.status = some ProgramStatus.Dead) ∧
    (∀ ctx st1, st.save_current ctx = some st1 →
      (st1.procs pid).map ProcessInner.status = some ProgramStatus.Dead) ∧
    (∀ ctx r, st.switch_next ctx = some r →
      (r.1.procs pid).map ProcessInner.status = some ProgramStatus.Dead) ∧
    (∀ ctx r, st.switch ctx = some r →
      (r.1.procs pid).map ProcessInner.status = some ProgramStatus.Dead) ∧
    (∀ q, ¬ q = pid →
      ((st.block q).procs pid).map ProcessInner.status = some ProgramStatus.Dead) ∧
    ((st.block pid).procs pid).map ProcessInner.status = some ProgramStatus.Blocked ∧
    (∀ q ret pl, st.procs q = some pl → ¬ pl.status = ProgramStatus.Dead →
      ∃ pk, (st.kill q ret).procs q = some pk ∧ pk.status = ProgramStatus.Dead ∧
        pk.derefData = none ∧ pk.vm = none) := by
  refine ⟨?_, ?_, ?_, ?_, ?_, ?_, ?_, ?_⟩
  · intro q ret
    rw [kill_preserves_dead st pid q ret p hp hd]
    simp [hd]
  · intro q ret
    rw [wake_up_preserves_dead st pid q ret p hp hd]
    simp [hd]
  · intro ctx st1 h
    obtain ⟨p1, hp1, hs1, _, _⟩ := save_current_pres st ctx st1 h pid p hp
    rw [hp1]
    simp [hs1, hd]
  · intro ctx r h
    rw [MgrState.switch_next] at h
    rw [switchLoop_preserves_dead st.ready_queue st ctx pid p r hp hd hv h]
    simp [hd]
  · intro ctx r h
    unfold MgrState.switch at h
    cases hsc : st.save_current ctx with
    | none => simp [hsc] at h
    | some st1 =>
      simp only [hsc] at h
      obtain ⟨p1, hp1, hs1, hv1, hcur⟩ := save_current_pres st ctx st1 hsc pid p hp
      have hd1 : p1.status = ProgramStatus.Dead := by rw [hs1, hd]
      have hv1n : p1.proc_vm = none := by rw [hv1, hv]
      cases hc1 : st1.procs st1.current with
      | none => simp [hc1] at h
      | some pc =>
        simp only [hc1] at h
        by_cases hcond : pc.status ≠ ProgramStatus.Dead ∧ pc.status ≠ ProgramStatus.Blocked
        · rw [if_pos hcond] at h
          rw [MgrState.switch_next] at h
          have hne : ¬ pid = st1.current := by
            intro hEq
            rw [hEq, hc1] at hp1
            have hpe : pc = p1 := Option.some.inj hp1
            rw [hpe, hd1] at hcond
            exact hcond.1 rfl
          have hp2 : ((st1.push_ready st1.current).setProc st1.current pc.pause.tick).procs pid = some p1 := by
            simp [MgrState.setProc, MgrState.push_ready, hne, hp1]
          rw [switchLoop_preserves_dead _ _ ctx pid p1 r hp2 hd1 hv1n h]
          simp [hd1]
        · rw [if_neg hcond] at h
          rw [MgrState.switch_next] at h
          rw [switchLoop_preserves_dead _ _ ctx pid p1 r hp1 hd1 hv1n h]
          simp [hd1]
  · intro q hq
    have hne : ¬ pid = q := fun hEq => hq hEq.symm
    unfold MgrState.block
    cases hq2 : st.procs q with
    | none => simp [hp, hd]
    | some pq =>
      simp [MgrState.setProc, hne, hp, hd]
  · unfold MgrState.block
    simp only [hp]
    simp [MgrState.setProc, ProcessInner.block]
  · intro q ret pl hpl hnd
    unfold MgrState.kill
    simp only [hpl, if_neg hnd]
    refine ⟨pl.kill ret, ?_, rfl, rfl, rfl⟩
    apply wake_up_foldl_preserves_dead
    · simp [MgrState.setProc]
    · rfl

theorem c5_dead_terminal_witness :
    ((exampleDeadMgr.kill 7 0).procs 5).map ProcessInner.status = some ProgramStatus.Dead ∧
      ((exampleDeadMgr.block 5).procs 5).map ProcessInner.status = some ProgramStatus.Blocked :=
  have h := c5_dead_terminal exampleDeadMgr 5 exampleDeadProc rfl rfl rfl
  ⟨h.1 7 0, h.2.2.2.2.2.2.1⟩

/-! ## Claim C6 (corrected) -/

/-- C6 counterexample: a fault one page below a 1-page stack maps exactly
one page — the resulting usage is 2, not 1 + 32, and the page two below
the old bottom stays unmapped — refuting the fixed 32-page-batch growth
the claim describes. -/
theorem c6_stack_growth_counterexample :
    ((Stack.mk 17179869183 17179869184 1 false).handle_page_fault
        (Mapper.mk (fun p => p == 17179869183) 40) 70368744169472).2.2 = true ∧
      ((Stack.mk 17179869183 17179869184 1 false).handle_page_fault
        (Mapper.mk (fun p => p == 17179869183) 40) 70368744169472).1.usage = 2 ∧
      ¬ ((Stack.mk 17179869183 17179869184 1 false).handle_page_fault
        (Mapper.mk (fun p => p == 17179869183) 40) 70368744169472).1.usage = 1 + 32 ∧
      ((Stack.mk 17179869183 17179869184 1 false).handle_page_fault
        (Mapper.mk (fun p => p == 17179869183) 40) 70368744169472).2.1.mapped 17179869181 = false :=
  ⟨rfl, rfl, by decide, rfl⟩

/-- C6 amended: whenever a page-fault address falls within the current
process's stack slot mask, the handler grows the stack mapping downward by
exactly the previously-unmapped pages between the faulting page and the
old stack bottom (not in fixed 32-page batches — the constant 32 appears
only in the limit check); a fault while `usage + 32` would exceed the hard
maximum stack page count fails and the page fault is reported as
unhandled; a fault at or above the current bottom succeeds with no new
mapping; an address outside the slot mask is not handled. -/
theorem c6_stack_growth (s : Stack) (m : Mapper) (addr : Nat) :
    (s.is_on_stack addr = false → s.handle_page_fault m addr = (s, m, false)) ∧
    (s.is_on_stack addr = true → STACK_MAX_PAGES < s.usage + 32 →
      s.handle_page_fault m addr = (s, m, false)) ∧
    (s.is_on_stack addr = true → s.usage + 32 ≤ STACK_MAX_PAGES →
      s.rangeStart ≤ pageOf addr → s.handle_page_fault m addr = (s, m, true)) ∧
    (s.is_on_stack addr = true → s.usage + 32 ≤ STACK_MAX_PAGES →
      pageOf addr < s.rangeStart →
      (∀ p ∈ pageRange (pageOf addr) s.rangeStart, m.mapped p = false) →
      s.rangeStart - pageOf addr ≤ m.budget →
      ∃ m1,
        s.handle_page_fault m addr =
          ({ s with rangeStart := pageOf addr, usage := s.usage + (s.rangeStart - pageOf addr) }, m1, true) ∧
        (∀ p ∈ pageRange (pageOf addr) s.rangeStart, m1.mapped p = true) ∧
        (∀ p, p ∉ pageRange (pageOf addr) s.rangeStart → m1.mapped p = m.mapped p)) := by
  refine ⟨?_, ?_, ?_, ?_⟩
  · intro hoff
    simp [Stack.handle_page_fault, hoff]
  · intro hon hlim
    simp only [Stack.handle_page_fault, hon, if_true, Stack.grow_stack]
    rw [if_pos hlim]
  · intro hon hlim hge
    have hns : ¬ pageOf addr < s.rangeStart := by omega
    simp only [Stack.handle_page_fault, hon, if_true, Stack.grow_stack]
    rw [if_neg (by omega), if_neg hns]
    rw [if_pos (by omega)]
  · intro hon hlim hlt hfree hbud
    obtain ⟨m1, hmap, hin, hout, _⟩ :=
      mapPagesStrict_success (pageRange (pageOf addr) s.rangeStart) m
        (pageRange_nodup _ _) hfree (by rw [pageRange_length]; omega)
    refine ⟨m1, ?_, hin, hout⟩
    have hcount : ¬ (s.rangeStart - pageOf addr) = 0 := by omega
    simp only [Stack.handle_page_fault, hon, if_true, Stack.grow_stack]
    rw [if_neg (by omega), if_pos hlt, if_neg hcount, hmap]
    simp

theorem c6_stack_growth_witness :
    ((Stack.mk 17179869183 17179869184 1 false).handle_page_fault
        (Mapper.mk (fun p => p == 17179869183) 40) 70368744169472).1.usage = 2 := by
  obtain ⟨m1, heq, _, _⟩ :=
    (c6_stack_growth (Stack.mk 17179869183 17179869184 1 false)
      (Mapper.mk (fun p => p == 17179869183) 40) 70368744169472).2.2.2
      (by decide) (by decide) (by decide) (by decide) (by decide)
  rw [heq]
  rfl

/-! ## Claim C3 -/

/-- C3: for every semaphore starting from count `C ≥ 0` with an empty wait
queue, after any finite sequence of wait and signal operations on that
key, a strictly positive count implies an empty wait queue. -/
theorem c3_semaphore_invariant (C : Nat) (ops : List SemOp)
    (h : 0 < ((Semaphore.new C).run ops).count) :
    ((Semaphore.new C).run ops).wait_queue = [] :=
  semInvariant_run (Semaphore.new C) ops (semInvariant_new C) h

theorem c3_semaphore_invariant_witness :
    0 < ((Semaphore.new 2).run [SemOp.wait 3, SemOp.signal]).count ∧
      ((Semaphore.new 2).run [SemOp.wait 3, SemOp.signal]).wait_queue = [] :=
  ⟨by decide, c3_semaphore_invariant 2 [SemOp.wait 3, SemOp.signal] (by decide)⟩

/-! ## Claim C10 -/

/-- C10: `SemaphoreSet::insert(key, value)` with the key already present
replaces the existing semaphore by a fresh one (count = value, empty wait
queue) — silently discarding any pids blocked in the old wait queue — and
returns `false`; with the key absent it creates the semaphore and returns
`true`. -/
theorem c10_semaphore_set_insert (set : SemaphoreSet) (key value : Nat) :
    (∀ old, set.get key = some old →
      (set.insert key value).2 = false ∧
        (set.insert key value).1.get key = some (Semaphore.new value)) ∧
    (set.get key = none →
      (set.insert key value).2 = true ∧
        (set.insert key value).1.get key = some (Semaphore.new value)) := by
  constructor
  · intro old hold
    have hfind : set.sems.find? (fun kv => kv.1 == key) = some (key, old) := by
      unfold SemaphoreSet.get at hold
      cases hf : set.sems.find? (fun kv => kv.1 == key) with
      | none => rw [hf] at hold; simp at hold
      | some kv =>
        rw [hf] at hold
        simp only [Option.map_some', Option.some.injEq] at hold
        have hkey := find_eq_key set.sems key kv hf
        rw [hkey]
        simp [hold]
    constructor
    · simp only [SemaphoreSet.insert, SemaphoreSet.get, hfind, Option.map_some']
    · simp only [SemaphoreSet.insert, SemaphoreSet.get, hfind, Option.map_some']
      rw [find_map_replace set.sems key (Semaphore.new value) old hfind]
      rfl
  · intro hnone
    have hfind : set.sems.find? (fun kv => kv.1 == key) = none := by
      unfold SemaphoreSet.get at hnone
      cases hf : set.sems.find? (fun kv => kv.1 == key) with
      | none => rfl
      | some kv => rw [hf] at hnone; simp at hnone
    constructor
    · simp only [SemaphoreSet.insert, SemaphoreSet.get, hfind, Option.map_none']
    · simp only [SemaphoreSet.insert, SemaphoreSet.get, hfind, Option.map_none']
      rw [List.find?_append, hfind]
      simp [List.find?]

theorem c10_semaphore_set_insert_witness :
    ((SemaphoreSet.mk [(7, Semaphore.mk 0 [3, 4])]).insert 7 5).2 = false ∧
      ((SemaphoreSet.mk [(7, Semaphore.mk 0 [3, 4])]).insert 7 5).1.get 7 =
        some (Semaphore.new 5) :=
  (c10_semaphore_set_insert (SemaphoreSet.mk [(7, Semaphore.mk 0 [3, 4])]) 7 5).1
    (Semaphore.mk 0 [3, 4]) (by decide)

/-! ## Claim C9 (corrected) -/

/-- C9 counterexample: the generator's 16-bit counter wraps, so the claim
fails as stated for an unbounded number of allocations: the allocation at
index 65533 returns 65535 while the next one returns 0 (not monotonically
increasing), the allocation at index 65535 returns the reserved value 1,
and the allocation at index 65536 repeats the very first pid 2. -/
theorem c9_pid_counterexample :
    pidAt 65533 = 65535 ∧ pidAt 65534 = 0 ∧ pidAt 65535 = 1 ∧
      pidAt 65536 = 2 ∧ pidAt 0 = 2 := by
  refine ⟨?_, ?_, ?_, ?_, ?_⟩ <;> simp [pidAt_closed]

/-- C9 amended: within the first 65534 allocations the generator is
strictly monotone (so no value is returned twice) and never returns the
reserved pid 1; beyond that the 16-bit counter wraps and values repeat. -/
theorem c9_pid_amended (i j : Nat) (hj : j < 65534) (hij : i < j) :
    pidAt i < pidAt j ∧ pidAt i ≠ 1 ∧ pidAt j ≠ 1 := by
  have h1 : pidAt i = 2 + i := by
    rw [pidAt_closed, Nat.mod_eq_of_lt (by omega)]
  have h2 : pidAt j = 2 + j := by
    rw [pidAt_closed, Nat.mod_eq_of_lt (by omega)]
  refine ⟨?_, ?_, ?_⟩ <;> omega

theorem c9_pid_amended_witness :
    pidAt 0 < pidAt 1 ∧ pidAt 0 ≠ 1 ∧ pidAt 1 ≠ 1 :=
  c9_pid_amended 0 1 (by norm_num) (by norm_num)

end OsLab
